import Mathlib

/-!
Verification of the IRC chat server against its specification.

The development shallowly embeds the wire-message parser and serializer
(src/parser.rs, src/message.rs), the channel operations
(src/server_utils/channel.rs), the coordinator handlers for PRIVMSG and AWAY
(src/server_utils/server.rs), the multiserver kick handler
(src/server_utils/messages_processing_server/manage_channels.rs) and the
nickname-change handler
(src/server_utils/messages_processing_client/connection_and_registration.rs).

Rust `String` values are embedded as `List Char`; `HashMap` as an association
list; `HashSet` as a list whose operations preserve the no-duplicates
discipline of the source (the source itself guards every insert by a
membership test).  Fallible Rust functions returning `Result` are embedded as
`Except`; functions mutating `&mut self` are embedded by explicit state
passing.  Places where the Rust code would panic on an unwrap are noted in the
doc comment of the embedding and excluded by hypotheses of the theorems.
-/

namespace IrcChat

/-- Characters of the wire protocol, embedded as `List Char`. -/
abbrev Str := List Char

/-- Message is the parsed wire message (src/message.rs):
optional prefix, command, and a list of parameter groups.
The Rust field `prefix` is called `pfx` here. -/
structure Message where
  pfx : Option Str
  command : Str
  params : List (List Str)
deriving DecidableEq, Repr

/-- Decidable equality for `Except`, used to evaluate concrete parser
results in witnesses and counterexamples. -/
instance {ε α : Type} [DecidableEq ε] [DecidableEq α] : DecidableEq (Except ε α) :=
  fun a b =>
    match a, b with
    | .error e, .error f =>
      if h : e = f then isTrue (by rw [h]) else isFalse (by simp [h])
    | .ok x, .ok y =>
      if h : x = y then isTrue (by rw [h]) else isFalse (by simp [h])
    | .error _, .ok _ => isFalse (by simp)
    | .ok _, .error _ => isFalse (by simp)

/-! ## Parser (src/parser.rs) -/

/-- Embeds `next_whitespace`: index of the first space in the slice. -/
def next_whitespace : Str → Option Nat
  | [] => none
  | c :: rest => if c = ' ' then some 0 else (next_whitespace rest).map (· + 1)

/-- Embeds `erase_front_whitespaces`: drop the characters before the first
non-space character; the Rust loop leaves the slice unchanged when every
character is a space (the `break` is never reached). -/
def erase_front_whitespaces (slice : Str) : Str :=
  if slice.all (fun c => c = ' ') then slice else slice.dropWhile (fun c => c = ' ')

/-- Embeds `get_index_of_end_of_message`: index of the CR of the first CRLF;
an LF met before, a CR not followed by LF, or no CR at all is an error. -/
def get_index_of_end_of_message : Str → Except String Nat
  | [] => .error "Message is broken"
  | c :: rest =>
    if c = '\n' then .error "Message is broken"
    else if c = '\r' then
      if rest.head? = some '\n' then .ok 0 else .error "Message is broken"
    else (get_index_of_end_of_message rest).map (· + 1)

/-- Embeds `param_is_valid`: no LF, CR or colon occurs in the slice. -/
def param_is_valid (slice : Str) : Bool :=
  slice.all (fun c => ¬ (c = '\n' ∨ c = '\r' ∨ c = ':'))

/-- Embeds Rust `str::split` on a single separator character:
`split_sep sep s` cuts `s` at every occurrence of `sep`; the empty string
splits to `[""]`, adjacent separators produce empty pieces. -/
def split_sep (sep : Char) : Str → List Str
  | [] => [[]]
  | c :: rest =>
    match split_sep sep rest with
    | r :: rs => if c = sep then [] :: r :: rs else (c :: r) :: rs
    | [] => [[c]]

/-- Embeds `process_last_param`: locate CRLF, validate the slice before it,
split it by `sep` and append the result to the accumulated parameter groups. -/
def process_last_param (slice : Str) (params : List (List Str)) (sep : Char) :
    Except String (List (List Str)) :=
  match get_index_of_end_of_message slice with
  | .error e => .error e
  | .ok index =>
    if param_is_valid (slice.take index) then
      .ok (params ++ [split_sep sep (slice.take index)])
    else .error "Message is broken"

theorem next_whitespace_lt {s : Str} {i : Nat} (h : next_whitespace s = some i) :
    i < s.length := by
  induction s generalizing i with
  | nil => simp [next_whitespace] at h
  | cons c rest ih =>
    by_cases hc : c = ' '
    · simp [next_whitespace, hc] at h
      simp [← h]
    · simp [next_whitespace, hc] at h
      obtain ⟨j, hj, rfl⟩ := h
      have := ih hj
      simp
      omega

/-- Embeds the parameter loop of `parse` (src/parser.rs lines 136-178):
a leading colon selects the trailing branch (split by LF), the last
space-free run selects the comma branch, and every other space-delimited run
is validated, split by comma and accumulated. -/
def parse_params (remaining : Str) (params : List (List Str)) :
    Except String (List (List Str)) :=
  if remaining.head? = some ':' then
    process_last_param (remaining.drop 1) params '\n'
  else
    match h : next_whitespace remaining with
    | none => process_last_param remaining params ','
    | some i =>
      if param_is_valid (remaining.take i) then
        parse_params (remaining.drop (i + 1))
          (params ++ [split_sep ',' (remaining.take i)])
      else .error "Message is broken"
termination_by remaining.length
decreasing_by
  have := next_whitespace_lt h
  simp
  omega

/-- Embeds the rest of `parse` once the prefix has been handled: wipe the
leading whitespace, read the command up to the next space or CRLF, then run
the parameter loop on the remainder (after wiping whitespace again). -/
def parse_after_pfx (pfx : Option Str) (r1 : Str) : Except String Message :=
  match next_whitespace (erase_front_whitespaces r1) with
  | none =>
    match get_index_of_end_of_message (erase_front_whitespaces r1) with
    | .error e => .error e
    | .ok index => .ok ⟨pfx, (erase_front_whitespaces r1).take index, []⟩
  | some i =>
    match parse_params
        (erase_front_whitespaces ((erase_front_whitespaces r1).drop i)) [] with
    | .error e => .error e
    | .ok ps => .ok ⟨pfx, (erase_front_whitespaces r1).take i, ps⟩

/-- Embeds `parse`: a leading colon introduces the prefix, which runs up to
the first space; the rest of the line is handled by `parse_after_pfx`. -/
def parse (message : Str) : Except String Message :=
  if message.head? = some ':' then
    match next_whitespace message with
    | none => .error "Message is broken"
    | some i => parse_after_pfx (some ((message.take i).drop 1)) (message.drop i)
  else parse_after_pfx none message

/-! ## Serializer (src/message.rs) -/

/-- Embeds `Message::params_total_count`: the number of parameters summed over
all groups. -/
def params_total_count (m : Message) : Nat :=
  (m.params.map List.length).sum

/-- Embeds the inner loop of `Message::as_string` over one parameter group:
`counter` is the number of parameters already written overall, `j` the
position inside the group; the very last parameter overall gets a colon when
it contains a space, every other non-first parameter of a group gets a comma. -/
def group_chars (total : Nat) : Nat → Nat → List Str → Str
  | _, _, [] => []
  | counter, j, p :: ps =>
    (if counter + 1 = total ∧ ' ' ∈ p then [':']
     else if j ≠ 0 then [','] else []) ++ p ++ group_chars total (counter + 1) (j + 1) ps

/-- Embeds the outer loop of `Message::as_string` over the parameter groups:
empty groups are skipped, every other group is preceded by one space. -/
def groups_chars (total : Nat) : Nat → List (List Str) → Str
  | _, [] => []
  | counter, g :: gs =>
    if g = [] then groups_chars total counter gs
    else ' ' :: group_chars total counter 0 g ++ groups_chars total (counter + g.length) gs

/-- Embeds `Message::as_string`: optional `:prefix `, the command, the
serialized parameter groups, and the closing CRLF. -/
def as_string (m : Message) : Str :=
  (match m.pfx with
   | some p => ':' :: p ++ [' ']
   | none => []) ++
  m.command ++ groups_chars (params_total_count m) 0 m.params ++ ['\r', '\n']

/-! ## Users and numeric replies (src/server_utils/user.rs, src/numeric_reply.rs) -/

/-- User embeds the Rust `User` struct: the `channels` HashSet is a list (the
source only inserts after membership tests, so it is duplicate-free). -/
structure User where
  nickname : Str
  address : Str
  username : Str
  real_name : Str
  server_name : Str
  password : Str
  channels : List Str
  away_message : Option Str
deriving DecidableEq, Repr

/-- Embeds `User::new`. -/
def User.new (nickname address username real_name server_name password : Str) : User :=
  ⟨nickname, address, username, real_name, server_name, password, [], none⟩

/-- Embeds `User::is_away`. -/
def User.is_away (u : User) : Bool := u.away_message.isSome

/-- Embeds `User::has_away_message`. -/
def User.has_away_message (u : User) (away_message : Str) : Bool :=
  u.away_message = some away_message

/-- NumericReply embeds the Rust struct of the same name; the reply number
and the fixed reply text are kept as Lean string literals. -/
structure NumericReply where
  message : Str
  number : String
  params : List Str
deriving DecidableEq, Repr

/-- Embeds `NumericReply::new` (a missing parameter vector becomes `[]`). -/
def NumericReply.new (number : String) (message : Str) (parameters : Option (List Str)) :
    NumericReply :=
  ⟨message, number, parameters.getD []⟩

/-- Embeds `ServerError` (src/custom_errors/server_error.rs). -/
structure ServerError where
  kind : String
  message : String
deriving DecidableEq, Repr

/-! ## Association-list maps

The coordinator's `HashMap<String, _>` maps are embedded as association
lists: `alist_get` is `HashMap::get`, `alist_insert` is `HashMap::insert`
(replacing an existing binding), `alist_remove` is `HashMap::remove`. -/

def alist_get {α : Type} : List (Str × α) → Str → Option α
  | [], _ => none
  | (k, v) :: rest, key => if k = key then some v else alist_get rest key

def alist_insert {α : Type} : List (Str × α) → Str → α → List (Str × α)
  | [], k, v => [(k, v)]
  | (k', v') :: rest, k, v =>
    if k' = k then (k, v) :: rest else (k', v') :: alist_insert rest k v

def alist_remove {α : Type} : List (Str × α) → Str → List (Str × α)
  | [], _ => []
  | (k, v) :: rest, key =>
    if k = key then alist_remove rest key else (k, v) :: alist_remove rest key

/-! ## Channel (src/server_utils/channel.rs) -/

/-- Channel embeds the Rust `Channel` struct.  `users` is the members map
(nickname to user snapshot), `banned` is the HashSet of banned nicknames. -/
structure Channel where
  name : Str
  topic : Option Str
  users : List (Str × User)
  key : Option Str
  operators : List Str
  invites : List Str
  limit : Option Nat
  enter_mode : Option Str
  operator_settable_topic : Bool
  secret : Bool
  banned : List Str
deriving DecidableEq, Repr

/-- Mode token constants (src/commands.rs). -/
def MODE_SET_KEY : Str := "+k".toList

def MODE_SET_INVITE : Str := "+i".toList

/-- Embeds `Channel::new`. -/
def Channel.new (name : Str) (operator : User) : Channel :=
  ⟨name, none, [(operator.nickname, operator)], none, [operator.nickname],
   [], none, none, false, false, []⟩

/-- Embeds `Channel::is_user_on_channel`. -/
def Channel.is_user_on_channel (c : Channel) (nickname : Str) : Bool :=
  (alist_get c.users nickname).isSome

/-- Embeds `Channel::is_operator`. -/
def Channel.is_operator (c : Channel) (nickname : Str) : Bool :=
  c.operators.contains nickname

/-- Embeds `Channel::is_banned`. -/
def Channel.is_banned (c : Channel) (nickname : Str) : Bool :=
  c.banned.contains nickname

/-- Embeds `Channel::is_empty`. -/
def Channel.is_empty (c : Channel) : Bool := c.users.isEmpty

/-- Embeds `Channel::is_multiserver`: the name starts with `#`. -/
def Channel.is_multiserver (c : Channel) : Bool := c.name.head? = some '#'

/-- Embeds `Channel::get_topic_reply`: `RPL_NOTOPIC` when no topic is set,
otherwise `RPL_TOPIC` carrying the topic as the reply text. -/
def Channel.get_topic_reply (c : Channel) : NumericReply :=
  match c.topic with
  | none => NumericReply.new "331" "No topic is set".toList (some [c.name])
  | some t => NumericReply.new "332" t (some [c.name])

/-- Embeds `Channel::reply_user_using_privileges`: `ERR_NOTONCHANNEL` when the
nickname is not a member, `ERR_CHANOPRIVSNEEDED` when it is not an operator. -/
def Channel.reply_user_using_privileges (c : Channel) (nickname : Str) :
    Option NumericReply :=
  if ¬ c.is_user_on_channel nickname then
    some (NumericReply.new "442" "You're not on that channel".toList (some [c.name]))
  else if ¬ c.is_operator nickname then
    some (NumericReply.new "482" "You're not channel operator".toList (some [c.name]))
  else none

/-- Embeds `Channel::join`.  The Rust function mutates `self` and returns
`Result<NumericReply, ServerError>` but never returns the error case, so the
embedding returns the reply together with the updated channel.  When
`enter_mode` is `+k` the source unwraps `self.key`; the embedding uses `[]`
for that impossible unset case (theorems about the key checks assume the
channel is well formed there). -/
def Channel.join (c : Channel) (user : User) (key : Option Str) :
    NumericReply × Channel :=
  if c.is_user_on_channel user.nickname then (c.get_topic_reply, c)
  else if c.is_banned user.nickname then
    (NumericReply.new "474" "Cannot join channel (+b)".toList (some [c.name]), c)
  else if user.channels.length = 10 then
    (NumericReply.new "405" "You have joined too many channels".toList (some [c.name]), c)
  else if c.limit.isSome ∧ c.limit.getD 0 ≤ c.users.length then
    (NumericReply.new "471" "Cannot join channel (+l)".toList (some [c.name]), c)
  else if c.enter_mode = some MODE_SET_INVITE ∧ ¬ c.invites.contains user.nickname then
    (NumericReply.new "473" "Cannot join channel (+i)".toList (some [c.name]), c)
  else if c.enter_mode = some MODE_SET_KEY ∧ key = none then
    (NumericReply.new "476" "The channel has a key".toList none, c)
  else if c.enter_mode = some MODE_SET_KEY ∧ key ≠ some (c.key.getD []) then
    (NumericReply.new "475" "Cannot join channel (+k)".toList (some [c.name]), c)
  else
    (c.get_topic_reply, { c with users := alist_insert c.users user.nickname user })

/-- Embeds `Channel::remove_user`: remove the nickname from the members map
and, when the removed user was an operator, from the operators list. -/
def Channel.remove_user (c : Channel) (nickname : Str) : Option User × Channel :=
  match alist_get c.users nickname with
  | none => (none, c)
  | some u =>
    (some u,
     { c with users := alist_remove c.users nickname,
              operators := c.operators.erase nickname })

/-- Embeds `Channel::part`: remove the user; `ERR_NOTONCHANNEL` when absent;
when the channel stays non-empty and has no operator left, promote the first
remaining member. -/
def Channel.part (c : Channel) (user : User) : Option NumericReply × Channel :=
  match c.remove_user user.nickname with
  | (none, c') =>
    (some (NumericReply.new "442" "You're not on that channel".toList
      (some [user.nickname, c'.name])), c')
  | (some _, c') =>
    if c'.is_empty then (none, c')
    else if c'.operators.isEmpty then
      match c'.users with
      | [] => (none, c')
      | (nick, _) :: _ => (none, { c' with operators := c'.operators ++ [nick] })
    else (none, c')

/-- Embeds `Channel::kick`: privileges of the kicker are checked, then
membership of the target; a self-kick is a no-op; otherwise the target is
removed via `remove_user`. -/
def Channel.kick (c : Channel) (nickname_user_getting_kicked nickname_user_kicking : Str) :
    Option NumericReply × Channel :=
  match c.reply_user_using_privileges nickname_user_kicking with
  | some reply => (some reply, c)
  | none =>
    if ¬ c.is_user_on_channel nickname_user_getting_kicked then
      (some (NumericReply.new "401" "No such nick/channel".toList
        (some [c.name, nickname_user_getting_kicked])), c)
    else if nickname_user_getting_kicked = nickname_user_kicking then (none, c)
    else (none, (c.remove_user nickname_user_getting_kicked).2)

/-- Handy accessor for `message.params[i][j]`; the Rust code indexes directly
and would panic when the entry is missing, so theorems that rely on the value
carry a shape hypothesis making the defaults unreachable. -/
def getParam (m : Message) (i j : Nat) : Str :=
  (m.params.getD i []).getD j []

/-- Embeds `Channel::set_key`: needs three parameters, privileges, and no key
already set; on success clears the invites, sets `enter_mode` to `+k` and
stores `message.params[2][0]` as the key. -/
def Channel.set_key (c : Channel) (message : Message) (nickname_user_setting_mode : Str) :
    Except NumericReply Channel :=
  if params_total_count message < 3 then
    .error (NumericReply.new "461" "Not enough parameters".toList none)
  else match c.reply_user_using_privileges nickname_user_setting_mode with
  | some reply => .error reply
  | none =>
    if c.key.isSome then
      .error (NumericReply.new "467" "Channel key already set".toList none)
    else
      .ok { c with invites := [], enter_mode := some MODE_SET_KEY,
                   key := some (getParam message 2 0) }

/-- Embeds `Channel::remove_key`: after the privilege check, unconditionally
clears both `enter_mode` and the key. -/
def Channel.remove_key (c : Channel) (nickname_user_setting_mode : Str) :
    Except NumericReply Channel :=
  match c.reply_user_using_privileges nickname_user_setting_mode with
  | some reply => .error reply
  | none => .ok { c with enter_mode := none, key := none }

/-- Embeds Rust `str::parse::<usize>`: optional leading `+`, then at least
one ASCII digit (the embedding ignores the `usize` overflow bound, which the
claims never reach). -/
def parse_usize (s : Str) : Option Nat :=
  let digits := match s with
    | '+' :: rest => rest
    | _ => s
  if digits ≠ [] ∧ digits.all (fun c => c.isDigit) then
    some (digits.foldl (fun acc c => 10 * acc + (c.toNat - '0'.toNat)) 0)
  else none

/-- Embeds `Channel::set_limit`: needs three parameters and privileges; a
non-numeric limit yields `ERR_INVALIDLIMIT` and leaves the channel unchanged. -/
def Channel.set_limit (c : Channel) (message : Message) (nickname_user_setting_mode : Str) :
    Except NumericReply Channel :=
  if params_total_count message < 3 then
    .error (NumericReply.new "461" "Not enough parameters".toList none)
  else match c.reply_user_using_privileges nickname_user_setting_mode with
  | some reply => .error reply
  | none =>
    match parse_usize (getParam message 2 0) with
    | some l => .ok { c with limit := some l }
    | none =>
      .error (NumericReply.new "8" "limit is invalid".toList (some [getParam message 2 0]))

/-- Embeds `Channel::remove_limit`. -/
def Channel.remove_limit (c : Channel) (nickname_user_setting_mode : Str) :
    Except NumericReply Channel :=
  match c.reply_user_using_privileges nickname_user_setting_mode with
  | some reply => .error reply
  | none => .ok { c with limit := none }

/-- Embeds `Channel::set_as_invite_only`: clears the key and sets
`enter_mode` to `+i`; the invite list is left as it is. -/
def Channel.set_as_invite_only (c : Channel) (nickname_user_setting_mode : Str) :
    Except NumericReply Channel :=
  match c.reply_user_using_privileges nickname_user_setting_mode with
  | some reply => .error reply
  | none => .ok { c with key := none, enter_mode := some MODE_SET_INVITE }

/-- Embeds `Channel::remove_invite_only_status`: only when `enter_mode` is
`+i` does it clear the mode and delete every pending invitation. -/
def Channel.remove_invite_only_status (c : Channel) (nickname_user_setting_mode : Str) :
    Except NumericReply Channel :=
  match c.reply_user_using_privileges nickname_user_setting_mode with
  | some reply => .error reply
  | none =>
    if c.enter_mode = some MODE_SET_INVITE then
      .ok { c with enter_mode := none, invites := [] }
    else .ok c

/-- Embeds `Channel::save_invite`: needs privileges of the inviter and the
target not yet on the channel. -/
def Channel.save_invite (c : Channel) (nickname : Str) (oper_nickname : Str) :
    Option NumericReply × Channel :=
  match c.reply_user_using_privileges oper_nickname with
  | some reply => (some reply, c)
  | none =>
    if c.is_user_on_channel nickname then
      (some (NumericReply.new "443" "is already on channel".toList
        (some [c.name, nickname])), c)
    else (none, { c with invites := c.invites ++ [nickname] })

/-- Embeds `Channel::give_operator_privileges`: needs three parameters,
privileges, and the target on the channel; appends the target to the
operators unless it already is one. -/
def Channel.give_operator_privileges (c : Channel) (message : Message)
    (nickname_user_setting_mode : Str) : Except NumericReply Channel :=
  if params_total_count message < 3 then
    .error (NumericReply.new "461" "Not enough parameters".toList none)
  else match c.reply_user_using_privileges nickname_user_setting_mode with
  | some reply => .error reply
  | none =>
    let target := getParam message 2 0
    if ¬ c.is_user_on_channel target then
      .error (NumericReply.new "401" "No such nick/channel".toList
        (some [c.name, target]))
    else if ¬ c.is_operator target then
      .ok { c with operators := c.operators ++ [target] }
    else .ok c

/-- Embeds `Channel::remove_operator_privileges`: needs three parameters and
privileges; a self-deop is a no-op; deop of a non-member is `ERR_NOSUCHNICK`;
otherwise the target is erased from the operators when present. -/
def Channel.remove_operator_privileges (c : Channel) (message : Message)
    (nickname_user_setting_mode : Str) : Except NumericReply Channel :=
  if params_total_count message < 3 then
    .error (NumericReply.new "461" "Not enough parameters".toList none)
  else match c.reply_user_using_privileges nickname_user_setting_mode with
  | some reply => .error reply
  | none =>
    let target := getParam message 2 0
    if nickname_user_setting_mode = target then .ok c
    else if ¬ c.is_user_on_channel target then
      .error (NumericReply.new "401" "No such channel".toList (some [c.name, target]))
    else if c.is_operator target then
      .ok { c with operators := c.operators.erase target }
    else .ok c

/-- Embeds `Channel::set_as_secret`. -/
def Channel.set_as_secret (c : Channel) (nickname_user_setting_mode : Str) :
    Except NumericReply Channel :=
  match c.reply_user_using_privileges nickname_user_setting_mode with
  | some reply => .error reply
  | none => .ok { c with secret := true }

/-- Embeds `Channel::remove_secret_status`. -/
def Channel.remove_secret_status (c : Channel) (nickname_user_setting_mode : Str) :
    Except NumericReply Channel :=
  match c.reply_user_using_privileges nickname_user_setting_mode with
  | some reply => .error reply
  | none => .ok { c with secret := false }

/-- Embeds `Channel::set_operator_settable_topic`. -/
def Channel.set_operator_settable_topic (c : Channel) (nickname_user_setting_mode : Str) :
    Except NumericReply Channel :=
  match c.reply_user_using_privileges nickname_user_setting_mode with
  | some reply => .error reply
  | none => .ok { c with operator_settable_topic := true }

/-- Embeds `Channel::remove_operator_settable_topic`. -/
def Channel.remove_operator_settable_topic (c : Channel) (nickname_user_setting_mode : Str) :
    Except NumericReply Channel :=
  match c.reply_user_using_privileges nickname_user_setting_mode with
  | some reply => .error reply
  | none => .ok { c with operator_settable_topic := false }

/-- Embeds `Channel::set_ban`: needs three parameters and privileges; every
nickname of `message.params[2]` not yet banned is inserted into the ban set. -/
def Channel.set_ban (c : Channel) (message : Message) (nickname_user_setting_mode : Str) :
    Except NumericReply Channel :=
  if params_total_count message < 3 then
    .error (NumericReply.new "461" "Not enough parameters".toList none)
  else match c.reply_user_using_privileges nickname_user_setting_mode with
  | some reply => .error reply
  | none =>
    let banned' := (message.params.getD 2 []).foldl
      (fun b nick => if b.contains nick then b else b ++ [nick]) c.banned
    .ok { c with banned := banned' }

/-- Embeds `Channel::remove_ban`: with exactly two parameters the whole ban
set is cleared, otherwise each nickname of `message.params[2]` is removed. -/
def Channel.remove_ban (c : Channel) (message : Message) (nickname_user_setting_mode : Str) :
    Except NumericReply Channel :=
  match c.reply_user_using_privileges nickname_user_setting_mode with
  | some reply => .error reply
  | none =>
    if params_total_count message = 2 then .ok { c with banned := [] }
    else
      let banned' := (message.params.getD 2 []).foldl
        (fun b nick => if b.contains nick then b.erase nick else b) c.banned
      .ok { c with banned := banned' }

/-- Embeds `Channel::set_topic`: the actor must be on the channel and, when
`operator_settable_topic` is set, an operator; on success the topic is stored
and `RPL_TOPIC` returned. -/
def Channel.set_topic (c : Channel) (nickname : Str) (topic : Str) :
    Except NumericReply (NumericReply × Channel) :=
  if ¬ c.is_user_on_channel nickname then
    .error (NumericReply.new "442" "You're not on that channel".toList (some [c.name]))
  else if c.operator_settable_topic ∧ ¬ c.is_operator nickname then
    .error (NumericReply.new "482" "You're not channel operator".toList (some [c.name]))
  else
    .ok (NumericReply.new "332" topic (some [c.name]), { c with topic := some topic })

/-! ## Multiserver kick handler
(src/server_utils/messages_processing_server/manage_channels.rs) -/

/-- Embeds the channel action of `handle_kick_multiserver`: when the kicked
user is not on the (already looked-up) channel the message is forwarded on
the peer stream (boolean `true`), otherwise the user is removed via
`Channel::remove_user` and the message is passed on to the coordinator.  No
privilege check, operator promotion, or empty-channel deletion happens on
this path. -/
def handle_kick_multiserver_chan (c : Channel) (user_getting_kicked : Str) :
    Channel × Bool :=
  if ¬ c.is_user_on_channel user_getting_kicked then (c, true)
  else ((c.remove_user user_getting_kicked).2, false)

/-! ## Nickname change
(src/server_utils/messages_processing_client/connection_and_registration.rs) -/

/-- Embeds `check_nickname_collision`: the nickname is a key of the user map. -/
def check_nickname_collision (users : List (Str × User)) (nickname : Str) : Bool :=
  (alist_get users nickname).isSome

/-- Embeds `change_nick`.  The Rust function returns
`Result<Option<NumericReply>, ServerError>` where the error case only covers
mutex poisoning; the embedding returns the reply together with the updated
user map and session user.  The source looks up `new_nickname` again after
the collision check; the `some` branch of that second lookup (which would
rename the found entry) is kept although it is unreachable. -/
def change_nick (message : Message) (users : List (Str × User)) (user : User) :
    Option NumericReply × List (Str × User) × User :=
  if params_total_count message = 0 then
    (some (NumericReply.new "431" "No nickname given".toList none), users, user)
  else
    let new_nickname := getParam message 0 0
    if check_nickname_collision users new_nickname then
      (some (NumericReply.new "433" "Nickname is already in use".toList none), users, user)
    else
      match alist_get users new_nickname with
      | some u =>
        (none, alist_insert users new_nickname { u with nickname := new_nickname },
         { user with nickname := new_nickname })
      | none => (none, users, user)

/-! ## Coordinator: PRIVMSG routing (src/server_utils/server.rs) -/

/-- Portion of the coordinator state that PRIVMSG routing touches:
the user map, the nicknames having a local session (the keys of the Rust
`users_clients` map), and the channel map. -/
structure ServerState where
  users : List (Str × User)
  users_clients : List Str
  channels : List (Str × Channel)
deriving Repr

/-- Observable routing actions: `deliver n` posts the message on the local
session queue of nickname `n`; `forward s` hands the message to the
server-role for the peer server named `s`. -/
inductive Effect where
  | deliver : Str → Effect
  | forward : Str → Effect
deriving DecidableEq, Repr

/-- Embeds `Server::send_message_to_receiver`: a locally connected receiver
gets the message on its session queue; otherwise the receiver's user record
names the home server the message is forwarded to.  The Rust code unwraps
the user lookup and would panic on an unknown receiver; the embedding makes
that case an error. -/
def send_message_to_receiver (st : ServerState) (receiver : Str) :
    Except ServerError (List Effect) :=
  if st.users_clients.contains receiver then .ok [.deliver receiver]
  else match alist_get st.users receiver with
  | some u => .ok [.forward u.server_name]
  | none => .error ⟨"PANIC", "users.get(receiver).unwrap() on an unknown user"⟩

/-- Embeds `Server::send_priv_msg`: a locally connected receiver always gets
the message; otherwise it is sent exactly when sender and receiver live on
different home servers. -/
def send_priv_msg (st : ServerState) (nickname_sender nickname_receiver : Str)
    (is_in_server : Bool) : Except ServerError Bool :=
  if is_in_server then .ok true
  else match alist_get st.users nickname_sender with
  | none => .error ⟨"NONCRITICAL", "User doesn't exist"⟩
  | some user =>
    match alist_get st.users nickname_receiver with
    | none => .error ⟨"NONCRITICAL", "User doesn't exist"⟩
    | some user_receiver => .ok (user.server_name ≠ user_receiver.server_name)

/-- Embeds the member loop of `Server::send_message_to_channel`: for every
member, `send_priv_msg` decides whether to send, and everybody but the sender
is served through `send_message_to_receiver`. -/
def send_to_channel_members (st : ServerState) (nickname_sender : Str) :
    List (Str × User) → Except ServerError (List Effect)
  | [] => .ok []
  | (nickname, _) :: rest =>
    match send_priv_msg st nickname_sender nickname (st.users_clients.contains nickname) with
    | .error e => .error e
    | .ok b =>
      if b ∧ nickname ≠ nickname_sender then
        match send_message_to_receiver st nickname with
        | .error e => .error e
        | .ok effs =>
          match send_to_channel_members st nickname_sender rest with
          | .error e => .error e
          | .ok more => .ok (effs ++ more)
      else send_to_channel_members st nickname_sender rest

/-- Embeds `Server::send_message_to_channel`: look the channel up and run the
member loop; a missing channel is a CRITICAL error. -/
def send_message_to_channel (st : ServerState) (channel_name nickname_sender : Str) :
    Except ServerError (List Effect) :=
  match alist_get st.channels channel_name with
  | some channel => send_to_channel_members st nickname_sender channel.users
  | none => .error ⟨"CRITICAL", "Couldn't get channel"⟩

/-- Embeds `Server::handle_private_message`: the receiver is
`message.params[0][0]`; when it CONTAINS `#` or `&` the channel path is
taken, otherwise the receiver path. -/
def handle_private_message (st : ServerState) (message : Message) :
    Except ServerError (List Effect) :=
  let nick := message.pfx.getD []
  let receiver := getParam message 0 0
  if receiver.contains '#' ∨ receiver.contains '&' then
    send_message_to_channel st receiver nick
  else send_message_to_receiver st receiver

/-! ## Coordinator: AWAY handling (src/server_utils/server.rs) together with
the server roles (src/server_utils/main_server.rs,
src/server_utils/secondary_server.rs) -/

/-- Observable server-role fan-out calls made by the AWAY handler. -/
inductive RolEffect where
  | notifyAll : RolEffect
  | notifyAllBut : Str → RolEffect
deriving DecidableEq, Repr

/-- Embeds `Server::handle_away`: the away text is cleared or set when the
request differs from the current state, and then fan-out happens only on the
main server (excluding the user's home server); when the request matches the
current state, `server_rol.notify` is invoked and the handler returns.  The
Rust code unwraps the message prefix; theorems assume it present. -/
def handle_away (is_main : Bool) (users : List (Str × User)) (message : Message) :
    Except ServerError (List (Str × User) × List RolEffect) :=
  let nickname := message.pfx.getD []
  match alist_get users nickname with
  | none => .error ⟨"CRITICAL", "user not found"⟩
  | some user =>
    if params_total_count message = 0 then
      if user.is_away then
        let users' := alist_insert users nickname { user with away_message := none }
        .ok (users', if is_main then [.notifyAllBut user.server_name] else [])
      else .ok (users, [.notifyAll])
    else
      let away_message := getParam message 0 0
      if ¬ user.has_away_message away_message then
        let users' := alist_insert users nickname
          { user with away_message := some away_message }
        .ok (users', if is_main then [.notifyAllBut user.server_name] else [])
      else .ok (users, [.notifyAll])

/-- Embeds the fan-out targets of the two server roles:
`MainServer::notify` sends to every connected secondary and
`MainServer::notify_all_but` to every secondary except the named one;
`SecondaryServer::notify` sends to the main, and its `notify_all_but` skips
the send exactly when the excluded name is the main. -/
def rol_sends (is_main : Bool) (peers : List Str) (main_name : Str) :
    RolEffect → List Str
  | .notifyAll => if is_main then peers else [main_name]
  | .notifyAllBut s =>
    if is_main then peers.filter (fun p => p ≠ s)
    else if s = main_name then [] else [main_name]

/-! ## Channel operation algebra

Glue definitions used to state the invariant and algebra claims. -/

/-- State reached by a mode operation: the updated channel on success, the
unchanged channel when the operation is rejected with a numeric reply (the
Rust methods return early without mutating `self` in that case). -/
def applyMode (c : Channel) (f : Channel → Except NumericReply Channel) : Channel :=
  match f c with
  | .ok c' => c'
  | .error _ => c

/-- One client-facing channel operation drawn from
JOIN / PART / KICK / MODE / TOPIC. -/
inductive ChanOp where
  | join (u : User) (key : Option Str)
  | part (u : User)
  | kick (target actor : Str)
  | setKey (msg : Message) (actor : Str)
  | removeKey (actor : Str)
  | setLimit (msg : Message) (actor : Str)
  | removeLimit (actor : Str)
  | setInviteOnly (actor : Str)
  | removeInviteOnly (actor : Str)
  | giveOp (msg : Message) (actor : Str)
  | removeOp (msg : Message) (actor : Str)
  | setSecret (actor : Str)
  | removeSecret (actor : Str)
  | setOpTopic (actor : Str)
  | removeOpTopic (actor : Str)
  | setBan (msg : Message) (actor : Str)
  | removeBan (msg : Message) (actor : Str)
  | setTopic (actor : Str) (topic : Str)

/-- Applies one operation to the lifecycle state of a channel (`none` is a
deleted channel).  PART follows `part_channel`
(messages_processing_client/manage_channels.rs), which deletes the channel
when it came out empty; the other operations mutate through the
corresponding `Channel` method. -/
def chan_step (s : Option Channel) (op : ChanOp) : Option Channel :=
  match s with
  | none => none
  | some c =>
    match op with
    | .join u key => some (c.join u key).2
    | .part u =>
      let c' := (c.part u).2
      if c'.is_empty then none else some c'
    | .kick target actor => some (c.kick target actor).2
    | .setKey msg actor => some (applyMode c (fun ch => ch.set_key msg actor))
    | .removeKey actor => some (applyMode c (fun ch => ch.remove_key actor))
    | .setLimit msg actor => some (applyMode c (fun ch => ch.set_limit msg actor))
    | .removeLimit actor => some (applyMode c (fun ch => ch.remove_limit actor))
    | .setInviteOnly actor => some (applyMode c (fun ch => ch.set_as_invite_only actor))
    | .removeInviteOnly actor =>
      some (applyMode c (fun ch => ch.remove_invite_only_status actor))
    | .giveOp msg actor => some (applyMode c (fun ch => ch.give_operator_privileges msg actor))
    | .removeOp msg actor =>
      some (applyMode c (fun ch => ch.remove_operator_privileges msg actor))
    | .setSecret actor => some (applyMode c (fun ch => ch.set_as_secret actor))
    | .removeSecret actor => some (applyMode c (fun ch => ch.remove_secret_status actor))
    | .setOpTopic actor => some (applyMode c (fun ch => ch.set_operator_settable_topic actor))
    | .removeOpTopic actor =>
      some (applyMode c (fun ch => ch.remove_operator_settable_topic actor))
    | .setBan msg actor => some (applyMode c (fun ch => ch.set_ban msg actor))
    | .removeBan msg actor => some (applyMode c (fun ch => ch.remove_ban msg actor))
    | .setTopic actor topic =>
      match c.set_topic actor topic with
      | .ok (_, c') => some c'
      | .error _ => some c

/-- Runs a sequence of channel operations. -/
def chan_run (ops : List ChanOp) (s : Option Channel) : Option Channel :=
  ops.foldl chan_step s

/-- Channel invariants of the specification, for a live channel:
(I1) the members map is non-empty, (I3) the operators list is non-empty, and
(I2) every operator nickname is a key of the members map; the operators list
is additionally duplicate-free (which the source maintains by guarding every
push with a membership test). -/
def chan_inv (c : Channel) : Prop :=
  c.users ≠ [] ∧ c.operators ≠ [] ∧
  (∀ n ∈ c.operators, (alist_get c.users n).isSome = true) ∧ c.operators.Nodup

/-- Lifts `chan_inv` to the lifecycle state: a deleted channel satisfies the
invariants vacuously. -/
def ChanInv (s : Option Channel) : Prop :=
  ∀ c, s = some c → chan_inv c

/-! ## Specification-side PRIVMSG routing description -/

/-- Routing outcome described from the specification's point of view, one
member at a time: the sender gets nothing; a locally connected member gets a
local delivery; a member living on a home server different from the sender's
causes one forward to that server (so several members sharing a remote
server cause several forwards); a disconnected member of the sender's own
server gets nothing. -/
def privmsg_channel_route (st : ServerState) (sender_server : Str) (sender : Str) :
    List (Str × User) → List Effect
  | [] => []
  | (nick, _) :: rest =>
    (if nick = sender then []
     else if st.users_clients.contains nick then [Effect.deliver nick]
     else
       match alist_get st.users nick with
       | some u => if u.server_name ≠ sender_server then [Effect.forward u.server_name] else []
       | none => []) ++ privmsg_channel_route st sender_server sender rest

/-! ## Concrete sample data for witnesses and counterexamples -/

/-- A sample user on server `s1`. -/
def mkUser (nick : Str) : User :=
  User.new nick "h".toList "u".toList "r".toList "s1".toList "p".toList

/-- A sample user on a chosen home server. -/
def mkUserOn (nick server : Str) : User :=
  User.new nick "h".toList "u".toList "r".toList server "p".toList

/-- A user who is already in eleven channels. -/
def c4user : User :=
  { mkUser "u".toList with channels := (List.range 11).map (fun i => [Char.ofNat (65 + i)]) }

/-- A fresh channel whose operator is `op`. -/
def c4chan : Channel := Channel.new "#c".toList (mkUser "op".toList)

/-- A channel in invite-only mode with one pending invitation. -/
def c5chan : Channel :=
  { Channel.new "#c".toList (mkUser "a".toList) with
    enter_mode := some MODE_SET_INVITE, invites := ["b".toList] }

/-- A channel with no enter mode but one pending invitation. -/
def c6chan : Channel :=
  { Channel.new "#c".toList (mkUser "a".toList) with invites := ["b".toList] }

/-- The channel obtained from a fresh two-member channel by the multiserver
kick of its only operator. -/
def c7kicked : Channel :=
  (handle_kick_multiserver_chan
    ((Channel.new "#c".toList (mkUser "a".toList)).join (mkUser "b".toList) none).2
    "a".toList).1

/-- A coordinator state whose only user has a `#` inside (not in front of)
the nickname and is locally connected. -/
def c8state : ServerState :=
  ⟨[("a#b".toList, mkUser "a#b".toList)], ["a#b".toList], []⟩

/-- A PRIVMSG aimed at the nickname `a#b`. -/
def c8msg : Message :=
  ⟨some "x".toList, "PRIVMSG".toList, [["a#b".toList], ["hola".toList]]⟩

/-- A user map whose only user is away with text `x`. -/
def c9users : List (Str × User) :=
  [("a".toList, { mkUser "a".toList with away_message := some "x".toList })]

/-- An AWAY request repeating the away text the user already has. -/
def c9msg : Message := ⟨some "a".toList, "AWAY".toList, [["x".toList]]⟩

/-- A NICK message asking for the fresh nickname `ari`. -/
def c10msg : Message := ⟨none, "NICK".toList, [["ari".toList]]⟩

/-! ## Wire-message well-formedness and serialization shapes

Specification-side vocabulary for the round-trip and trailing claims. -/

/-- True when the string contains a CRLF pair. -/
def has_crlf : Str → Bool
  | [] => false
  | c :: rest => (c = '\r' ∧ rest.head? = some '\n') || has_crlf rest

/-- Comma-joins the tokens of one parameter group, as the serializer does
for a group that needs no trailing form. -/
def join_sep : List Str → Str
  | [] => []
  | [p] => p
  | p :: ps => p ++ ',' :: join_sep ps

/-- A plain parameter token: non-empty and free of space, CR, LF, colon and
comma. -/
def plain_token (p : Str) : Bool :=
  ¬ p.isEmpty && p.all (fun c => ¬ (c = ' ' ∨ c = '\r' ∨ c = '\n' ∨ c = ':' ∨ c = ','))

/-- A token allowed in a final single-element group: spaces are allowed. -/
def final_token (p : Str) : Bool :=
  ¬ p.isEmpty && p.all (fun c => ¬ (c = '\r' ∨ c = '\n' ∨ c = ':' ∨ c = ','))

/-- A well-formed non-final parameter group: non-empty, all tokens plain. -/
def plain_group (g : List Str) : Bool :=
  ¬ g.isEmpty && g.all plain_token

/-- Well-formed parameter groups: every non-final group plain, the final
group either plain or a single (possibly space-carrying) token. -/
def valid_groups : List (List Str) → Bool
  | [] => true
  | [g] =>
    plain_group g ||
    (match g with
     | [p] => final_token p
     | _ => false)
  | g :: gs => plain_group g && valid_groups gs

/-- A well-formed command: non-empty, free of space, CR and LF, and not
starting with a colon (which would be read back as a prefix). -/
def valid_command (c : Str) : Bool :=
  ¬ c.isEmpty && c.all (fun ch => ¬ (ch = ' ' ∨ ch = '\r' ∨ ch = '\n')) &&
  ¬ (c.head? = some ':')

/-- A well-formed prefix: free of space, CR and LF. -/
def valid_pfx : Option Str → Bool
  | none => true
  | some p => p.all (fun ch => ¬ (ch = ' ' ∨ ch = '\r' ∨ ch = '\n'))

/-- A well-formed wire message: prefix, command and parameter groups all
well formed. -/
def valid_wire_message (m : Message) : Bool :=
  valid_pfx m.pfx && valid_command m.command && valid_groups m.params

/-- Validity exactly as the round-trip claim words it: every group is a
non-empty list of tokens free of CR, LF, colon and comma, and spaces are
allowed only in a final single-element group. -/
def claim_valid_groups (gs : List (List Str)) : Bool :=
  gs.all (fun g =>
    ¬ g.isEmpty &&
    g.all (fun p => p.all (fun c => ¬ (c = '\r' ∨ c = '\n' ∨ c = ':' ∨ c = ',')))) &&
  gs.dropLast.all (fun g => g.all (fun p => p.all (fun c => ¬ c = ' '))) &&
  (match gs.getLast? with
   | none => true
   | some g => (g.length = 1) || g.all (fun p => p.all (fun c => ¬ c = ' ')))

/-- The part of a serialized line after the command and its following space,
for everything up to (and including) the closing CRLF: the comma-joined
groups separated by single spaces, with the counter threaded exactly as the
serializer threads it. -/
def tail_chars (total : Nat) : Nat → List (List Str) → Str
  | _, [] => []
  | c, [g] => group_chars total c 0 g
  | c, g :: gs => group_chars total c 0 g ++ ' ' :: tail_chars total (c + g.length) gs

/-- The same region for a line whose last parameter is a trailing one:
comma-joined plain groups, then `:`, the trailing text and CRLF. -/
def trailing_chars : List (List Str) → Str → Str
  | [], t => ':' :: (t ++ ['\r', '\n'])
  | g :: gs, t => join_sep g ++ ' ' :: trailing_chars gs t

/-- A whole line whose last parameter is introduced by a colon: command,
plain middle groups, and the trailing text. -/
def line_with_trailing (cmd : Str) (gs : List (List Str)) (t : Str) : Str :=
  cmd ++ ' ' :: trailing_chars gs t

/-- The round-trip counterexample message: every group is non-empty and all
tokens are free of CR, LF, colon and comma (the first group holds the empty
token), yet serialization loses the first group. -/
def c1cex : Message := ⟨none, "C".toList, [["".toList], ["a".toList]]⟩

/-! ## Theorems -/

/-- C10: NICK never renames — `change_nick` leaves the user map and the
session user unchanged on every input: a missing nickname yields
`ERR_NONICKNAMEGIVEN`, a colliding one `ERR_NICKNAMEINUSE`, and in the
remaining case the second lookup of the fresh nickname necessarily finds no
entry, so the function returns early with no reply and no mutation.  The
shape hypothesis excludes messages on which the Rust indexing
`params[0][0]` would panic. -/
theorem change_nick_never_renames (message : Message) (users : List (Str × User))
    (user : User)
    (hshape : params_total_count message = 0 ∨ message.params.getD 0 [] ≠ []) :
    change_nick message users user =
      ((if params_total_count message = 0 then
          some (NumericReply.new "431" "No nickname given".toList none)
        else if check_nickname_collision users (getParam message 0 0) then
          some (NumericReply.new "433" "Nickname is already in use".toList none)
        else none),
       users, user) := by
  clear hshape
  unfold change_nick
  by_cases h0 : params_total_count message = 0
  · simp [h0]
  · simp only [h0, if_false]
    by_cases hcol : check_nickname_collision users (getParam message 0 0) = true
    · simp [hcol]
    · have hget : alist_get users (getParam message 0 0) = none := by
        unfold check_nickname_collision at hcol
        cases halg : alist_get users (getParam message 0 0)
        · rfl
        · simp [halg] at hcol
      simp [hcol, hget]

/-- Witness for C10 at a concrete NICK message and empty user map. -/
theorem change_nick_never_renames_witness :
    (params_total_count c10msg = 0 ∨ c10msg.params.getD 0 [] ≠ []) ∧
    change_nick c10msg [] (mkUser "a".toList) = (none, [], mkUser "a".toList) := by
  refine ⟨Or.inr (by decide), ?_⟩
  have h := change_nick_never_renames c10msg [] (mkUser "a".toList) (Or.inr (by decide))
  rw [h]
  decide

/-- C5 counterexample: `-k` applied while `enter_mode` is Invite does NOT
leave the state where the claimed machine prescribes — `remove_key`
unconditionally resets `enter_mode` to `None`, performing an
Invite-to-None transition on `-k` that the claimed transition list lacks. -/
theorem remove_key_moves_invite_to_none :
    c5chan.enter_mode = some MODE_SET_INVITE ∧
    Channel.remove_key c5chan "a".toList =
      .ok { c5chan with enter_mode := none, key := none } ∧
    ({ c5chan with enter_mode := none, key := none : Channel }).enter_mode ≠
      some MODE_SET_INVITE := by
  refine ⟨rfl, rfl, by decide⟩

/-- C5 (amended): the `enter_mode` transitions of the code are exactly:
`+i` moves any state to Invite clearing the key; `+k` with no key set moves
None or Invite to Key clearing the invite list, and is rejected with
`ERR_KEYSET` (no transition) when a key is set; `-i` moves Invite to None
clearing the invite list and does nothing in the other states; `-k` moves
EVERY state (including Invite) to None, clearing the key but not the
invites. -/
theorem enter_mode_state_machine (c : Channel) (actor : Str) (msg : Message)
    (hpriv : c.reply_user_using_privileges actor = none)
    (hshape : 3 ≤ params_total_count msg) :
    (c.set_as_invite_only actor =
      .ok { c with key := none, enter_mode := some MODE_SET_INVITE }) ∧
    (c.key = none →
      c.set_key msg actor =
        .ok { c with invites := [], enter_mode := some MODE_SET_KEY,
                     key := some (getParam msg 2 0) }) ∧
    (c.key ≠ none →
      c.set_key msg actor =
        .error (NumericReply.new "467" "Channel key already set".toList none)) ∧
    (c.enter_mode = some MODE_SET_INVITE →
      c.remove_invite_only_status actor = .ok { c with enter_mode := none, invites := [] }) ∧
    (c.enter_mode ≠ some MODE_SET_INVITE →
      c.remove_invite_only_status actor = .ok c) ∧
    (c.remove_key actor = .ok { c with enter_mode := none, key := none }) := by
  have hlt : ¬ (params_total_count msg < 3) := by omega
  refine ⟨?_, ?_, ?_, ?_, ?_, ?_⟩
  · unfold Channel.set_as_invite_only
    simp [hpriv]
  · intro hk
    unfold Channel.set_key
    simp [hlt, hpriv, hk]
  · intro hk
    unfold Channel.set_key
    simp [hlt, hpriv, Option.isSome_iff_exists]
    exact Option.ne_none_iff_exists'.mp hk
  · intro hm
    unfold Channel.remove_invite_only_status
    simp [hpriv, hm]
  · intro hm
    unfold Channel.remove_invite_only_status
    simp [hpriv, hm]
  · unfold Channel.remove_key
    simp [hpriv]

/-- Witness for C5 (amended) on a fresh channel operated by `a` and a
well-formed `MODE #c +k pass` message. -/
theorem enter_mode_state_machine_witness :
    ((Channel.new "#c".toList (mkUser "a".toList)).reply_user_using_privileges
        "a".toList = none) ∧
    (3 ≤ params_total_count
      ⟨none, "MODE".toList, [["#c".toList], ["+k".toList], ["pass".toList]]⟩) ∧
    ((Channel.new "#c".toList (mkUser "a".toList)).remove_key "a".toList =
      .ok { Channel.new "#c".toList (mkUser "a".toList) with
              enter_mode := none, key := none }) := by
  refine ⟨by decide, by decide, ?_⟩
  exact (enter_mode_state_machine (Channel.new "#c".toList (mkUser "a".toList))
    "a".toList ⟨none, "MODE".toList, [["#c".toList], ["+k".toList], ["pass".toList]]⟩
    (by decide) (by decide)).2.2.2.2.2

/-- C4 counterexample: a user already joined to eleven channels — "over 10"
in the claim's words — is NOT rejected with `ERR_TOOMANYCHANNELS`: the code
compares `user.channels.len() == 10`, so the join succeeds and inserts the
user. -/
theorem join_with_eleven_channels :
    10 < c4user.channels.length ∧
    (c4chan.join c4user none).1 =
      NumericReply.new "331" "No topic is set".toList (some [c4chan.name]) ∧
    (c4chan.join c4user none).1 ≠
      NumericReply.new "405" "You have joined too many channels".toList
        (some [c4chan.name]) ∧
    (c4chan.join c4user none).2.users.length = 2 := by
  refine ⟨by decide, by decide, by decide, by decide⟩

/-- C4 (amended): `Channel::join` performs its checks in exactly the claimed
order — already a member, banned, channel count, member limit, invite-only,
missing key, wrong key — and returns the first applicable reply without
mutating the channel, inserting the user otherwise; the channels-per-user
check however fires exactly when the user is in EXACTLY ten channels
(`len == 10`), not when over ten.  The hypothesis `hwf` ties the stored key
to the `+k` enter mode, which the source assumes by unwrapping. -/
theorem join_check_order (c : Channel) (u : User) (key : Option Str)
    (hwf : c.enter_mode = some MODE_SET_KEY → c.key.isSome) :
    (c.is_user_on_channel u.nickname → c.join u key = (c.get_topic_reply, c)) ∧
    (¬ c.is_user_on_channel u.nickname → c.is_banned u.nickname →
      c.join u key =
        (NumericReply.new "474" "Cannot join channel (+b)".toList (some [c.name]), c)) ∧
    (¬ c.is_user_on_channel u.nickname → ¬ c.is_banned u.nickname →
      u.channels.length = 10 →
      c.join u key =
        (NumericReply.new "405" "You have joined too many channels".toList
          (some [c.name]), c)) ∧
    (¬ c.is_user_on_channel u.nickname → ¬ c.is_banned u.nickname →
      u.channels.length ≠ 10 →
      (c.limit.isSome ∧ c.limit.getD 0 ≤ c.users.length) →
      c.join u key =
        (NumericReply.new "471" "Cannot join channel (+l)".toList (some [c.name]), c)) ∧
    (¬ c.is_user_on_channel u.nickname → ¬ c.is_banned u.nickname →
      u.channels.length ≠ 10 →
      ¬ (c.limit.isSome ∧ c.limit.getD 0 ≤ c.users.length) →
      (c.enter_mode = some MODE_SET_INVITE ∧ ¬ c.invites.contains u.nickname) →
      c.join u key =
        (NumericReply.new "473" "Cannot join channel (+i)".toList (some [c.name]), c)) ∧
    (¬ c.is_user_on_channel u.nickname → ¬ c.is_banned u.nickname →
      u.channels.length ≠ 10 →
      ¬ (c.limit.isSome ∧ c.limit.getD 0 ≤ c.users.length) →
      ¬ (c.enter_mode = some MODE_SET_INVITE ∧ ¬ c.invites.contains u.nickname) →
      (c.enter_mode = some MODE_SET_KEY ∧ key = none) →
      c.join u key =
        (NumericReply.new "476" "The channel has a key".toList none, c)) ∧
    (¬ c.is_user_on_channel u.nickname → ¬ c.is_banned u.nickname →
      u.channels.length ≠ 10 →
      ¬ (c.limit.isSome ∧ c.limit.getD 0 ≤ c.users.length) →
      ¬ (c.enter_mode = some MODE_SET_INVITE ∧ ¬ c.invites.contains u.nickname) →
      ¬ (c.enter_mode = some MODE_SET_KEY ∧ key = none) →
      (c.enter_mode = some MODE_SET_KEY ∧ key ≠ some (c.key.getD [])) →
      c.join u key =
        (NumericReply.new "475" "Cannot join channel (+k)".toList (some [c.name]), c)) ∧
    (¬ c.is_user_on_channel u.nickname → ¬ c.is_banned u.nickname →
      u.channels.length ≠ 10 →
      ¬ (c.limit.isSome ∧ c.limit.getD 0 ≤ c.users.length) →
      ¬ (c.enter_mode = some MODE_SET_INVITE ∧ ¬ c.invites.contains u.nickname) →
      ¬ (c.enter_mode = some MODE_SET_KEY ∧ key = none) →
      ¬ (c.enter_mode = some MODE_SET_KEY ∧ key ≠ some (c.key.getD [])) →
      c.join u key =
        (c.get_topic_reply,
         { c with users := alist_insert c.users u.nickname u })) := by
  clear hwf
  refine ⟨?_, ?_, ?_, ?_, ?_, ?_, ?_, ?_⟩
  · intro h1
    unfold Channel.join
    simp [h1]
  · intro h1 h2
    unfold Channel.join
    simp [h1, h2]
  · intro h1 h2 h3
    unfold Channel.join
    simp [h1, h2, h3]
  · intro h1 h2 h3 h4
    unfold Channel.join
    simp [h1, h2, h3, h4]
  · intro h1 h2 h3 h4 h5
    obtain ⟨h5a, h5b⟩ := h5
    have h5c : u.nickname ∉ c.invites := by simpa using h5b
    have hik : MODE_SET_INVITE ≠ MODE_SET_KEY := by decide
    unfold Channel.join
    simp [h1, h2, h3, h4, h5a, h5c, hik]
  · intro h1 h2 h3 h4 h5 h6
    obtain ⟨h6a, h6b⟩ := h6
    have hki : MODE_SET_KEY ≠ MODE_SET_INVITE := by decide
    unfold Channel.join
    simp [h1, h2, h3, h4, h6a, h6b, hki]
  · intro h1 h2 h3 h4 h5 h6 h7
    obtain ⟨h7a, h7b⟩ := h7
    have hki : MODE_SET_KEY ≠ MODE_SET_INVITE := by decide
    have hkey : key ≠ none := fun hk => h6 ⟨h7a, hk⟩
    unfold Channel.join
    simp [h1, h2, h3, h4, h7a, h7b, hki, hkey]
  · intro h1 h2 h3 h4 h5 h6 h7
    by_cases hm1 : c.enter_mode = some MODE_SET_INVITE
    · have hik : MODE_SET_INVITE ≠ MODE_SET_KEY := by decide
      have hin : u.nickname ∈ c.invites := by
        by_contra hc
        exact h5 ⟨hm1, by simpa using hc⟩
      unfold Channel.join
      simp [h1, h2, h3, h4, hm1, hik, hin]
    · by_cases hm2 : c.enter_mode = some MODE_SET_KEY
      · have hki : MODE_SET_KEY ≠ MODE_SET_INVITE := by decide
        have hk1 : key ≠ none := fun hk => h6 ⟨hm2, hk⟩
        have hk2 : key = some (c.key.getD []) := by
          by_contra hc
          exact h7 ⟨hm2, hc⟩
        unfold Channel.join
        simp [h1, h2, h3, h4, hm2, hki, hk2]
      · unfold Channel.join
        simp [h1, h2, h3, h4, hm1, hm2]

/-- Witness for C4 (amended): a user with one channel joins a keyed channel
supplying the right key. -/
theorem join_check_order_witness :
    (({ Channel.new "#c".toList (mkUser "a".toList) with
          enter_mode := some MODE_SET_KEY, key := some "pass".toList : Channel
      }).enter_mode = some MODE_SET_KEY →
      ({ Channel.new "#c".toList (mkUser "a".toList) with
          enter_mode := some MODE_SET_KEY, key := some "pass".toList : Channel
      }).key.isSome) ∧
    ({ Channel.new "#c".toList (mkUser "a".toList) with
        enter_mode := some MODE_SET_KEY, key := some "pass".toList : Channel
     }).join (mkUser "b".toList) (some "pass".toList) =
      (NumericReply.new "331" "No topic is set".toList (some ["#c".toList]),
       { Channel.new "#c".toList (mkUser "a".toList) with
          enter_mode := some MODE_SET_KEY, key := some "pass".toList,
          users := alist_insert
            ({ Channel.new "#c".toList (mkUser "a".toList) with
                enter_mode := some MODE_SET_KEY, key := some "pass".toList : Channel
             }).users "b".toList (mkUser "b".toList) }) := by
  refine ⟨by decide, ?_⟩
  have h := (join_check_order
    ({ Channel.new "#c".toList (mkUser "a".toList) with
        enter_mode := some MODE_SET_KEY, key := some "pass".toList : Channel })
    (mkUser "b".toList) (some "pass".toList) (by decide)).2.2.2.2.2.2.2
  exact h (by decide) (by decide) (by decide) (by decide) (by decide) (by decide)
    (by decide)

/-- Privilege check characterization: no reply exactly when the actor is a
member and an operator. -/
theorem priv_none_iff (c : Channel) (actor : Str) :
    c.reply_user_using_privileges actor = none ↔
      ((alist_get c.users actor).isSome = true ∧ c.operators.contains actor = true) := by
  unfold Channel.reply_user_using_privileges Channel.is_user_on_channel Channel.is_operator
  by_cases h1 : (alist_get c.users actor).isSome = true
  · by_cases h2 : c.operators.contains actor = true
    · simp [h1, h2]
    · simp [h1, h2]
  · simp [h1]

/-- Privilege check transfer to a channel with the same members and
operators. -/
theorem priv_none_update (c c' : Channel) (actor : Str)
    (hpriv : c.reply_user_using_privileges actor = none)
    (hu : c'.users = c.users) (ho : c'.operators = c.operators) :
    c'.reply_user_using_privileges actor = none := by
  rw [priv_none_iff] at hpriv ⊢
  rw [hu, ho]
  exact hpriv

theorem set_key_of_none {c : Channel} {actor : Str} {msg : Message}
    (hpriv : c.reply_user_using_privileges actor = none)
    (hlt : ¬ params_total_count msg < 3) (hk : c.key = none) :
    c.set_key msg actor =
      .ok { c with invites := [], enter_mode := some MODE_SET_KEY,
                   key := some (getParam msg 2 0) } := by
  unfold Channel.set_key
  simp [hlt, hpriv, hk]

theorem set_key_of_some {c : Channel} {actor : Str} {msg : Message}
    (hpriv : c.reply_user_using_privileges actor = none)
    (hlt : ¬ params_total_count msg < 3) (hk : c.key.isSome = true) :
    c.set_key msg actor =
      .error (NumericReply.new "467" "Channel key already set".toList none) := by
  unfold Channel.set_key
  simp [hlt, hpriv, hk]

theorem remove_key_eq {c : Channel} {actor : Str}
    (hpriv : c.reply_user_using_privileges actor = none) :
    c.remove_key actor = .ok { c with enter_mode := none, key := none } := by
  unfold Channel.remove_key
  simp [hpriv]

theorem set_limit_eq {c : Channel} {actor : Str} {msg : Message}
    (hpriv : c.reply_user_using_privileges actor = none)
    (hlt : ¬ params_total_count msg < 3) :
    c.set_limit msg actor =
      (match parse_usize (getParam msg 2 0) with
       | some l => .ok { c with limit := some l }
       | none => .error (NumericReply.new "8" "limit is invalid".toList
           (some [getParam msg 2 0]))) := by
  unfold Channel.set_limit
  simp [hlt, hpriv]

theorem remove_limit_eq {c : Channel} {actor : Str}
    (hpriv : c.reply_user_using_privileges actor = none) :
    c.remove_limit actor = .ok { c with limit := none } := by
  unfold Channel.remove_limit
  simp [hpriv]

theorem set_invite_eq {c : Channel} {actor : Str}
    (hpriv : c.reply_user_using_privileges actor = none) :
    c.set_as_invite_only actor =
      .ok { c with key := none, enter_mode := some MODE_SET_INVITE } := by
  unfold Channel.set_as_invite_only
  simp [hpriv]

theorem remove_invite_eq {c : Channel} {actor : Str}
    (hpriv : c.reply_user_using_privileges actor = none) :
    c.remove_invite_only_status actor =
      (if c.enter_mode = some MODE_SET_INVITE then
        .ok { c with enter_mode := none, invites := [] }
      else .ok c) := by
  unfold Channel.remove_invite_only_status
  simp [hpriv]

/-- C6 counterexample: `+i` followed by `-i` does NOT restore the pending
invitations — `remove_invite_only_status` clears the invite list, so a
channel that had a pending invite before `+i` comes back without it. -/
theorem plus_i_minus_i_loses_invites :
    (c6chan.set_as_invite_only "a".toList).bind
        (fun ch => ch.remove_invite_only_status "a".toList) =
      .ok { c6chan with invites := [] } ∧
    c6chan.invites ≠ ([] : List Str) := by
  exact ⟨rfl, by decide⟩

/-- C6 (amended): for an acting member-operator, applying `+X` twice (same
argument) leaves the channel exactly as applying it once, for every
X in k, l, i, o, t, s; and `+X` then `-X` restores the original channel
PROVIDED the toggled feature was absent beforehand (no key, no enter mode
and no pending invites for k and i, no limit for l, target not yet an
operator for o, flag clear for t and s) — without such a proviso the pair
can erase prior state, as the counterexample shows. -/
theorem mode_toggle_algebra (c : Channel) (actor : Str) (msg : Message)
    (hpriv : c.reply_user_using_privileges actor = none)
    (hshape : 3 ≤ params_total_count msg) :
    (applyMode (applyMode c (fun ch => ch.set_key msg actor))
        (fun ch => ch.set_key msg actor) =
      applyMode c (fun ch => ch.set_key msg actor)) ∧
    (c.key = none → c.enter_mode = none → c.invites = [] →
      applyMode (applyMode c (fun ch => ch.set_key msg actor))
        (fun ch => ch.remove_key actor) = c) ∧
    (applyMode (applyMode c (fun ch => ch.set_limit msg actor))
        (fun ch => ch.set_limit msg actor) =
      applyMode c (fun ch => ch.set_limit msg actor)) ∧
    (c.limit = none →
      applyMode (applyMode c (fun ch => ch.set_limit msg actor))
        (fun ch => ch.remove_limit actor) = c) ∧
    (applyMode (applyMode c (fun ch => ch.set_as_invite_only actor))
        (fun ch => ch.set_as_invite_only actor) =
      applyMode c (fun ch => ch.set_as_invite_only actor)) ∧
    (c.enter_mode = none → c.key = none → c.invites = [] →
      applyMode (applyMode c (fun ch => ch.set_as_invite_only actor))
        (fun ch => ch.remove_invite_only_status actor) = c) ∧
    (applyMode (applyMode c (fun ch => ch.give_operator_privileges msg actor))
        (fun ch => ch.give_operator_privileges msg actor) =
      applyMode c (fun ch => ch.give_operator_privileges msg actor)) ∧
    (c.is_user_on_channel (getParam msg 2 0) = true →
      c.is_operator (getParam msg 2 0) = false →
      actor ≠ getParam msg 2 0 →
      applyMode (applyMode c (fun ch => ch.give_operator_privileges msg actor))
        (fun ch => ch.remove_operator_privileges msg actor) = c) ∧
    (applyMode (applyMode c (fun ch => ch.set_operator_settable_topic actor))
        (fun ch => ch.set_operator_settable_topic actor) =
      applyMode c (fun ch => ch.set_operator_settable_topic actor)) ∧
    (c.operator_settable_topic = false →
      applyMode (applyMode c (fun ch => ch.set_operator_settable_topic actor))
        (fun ch => ch.remove_operator_settable_topic actor) = c) ∧
    (applyMode (applyMode c (fun ch => ch.set_as_secret actor))
        (fun ch => ch.set_as_secret actor) =
      applyMode c (fun ch => ch.set_as_secret actor)) ∧
    (c.secret = false →
      applyMode (applyMode c (fun ch => ch.set_as_secret actor))
        (fun ch => ch.remove_secret_status actor) = c) := by
  have hlt : ¬ params_total_count msg < 3 := by omega
  refine ⟨?_, ?_, ?_, ?_, ?_, ?_, ?_, ?_, ?_, ?_, ?_, ?_⟩
  · cases hk : c.key with
    | some k =>
      have h1 := set_key_of_some hpriv hlt (by simp [hk])
      simp [applyMode, h1]
    | none =>
      have h1 := set_key_of_none hpriv hlt hk
      have hpriv2 := priv_none_update c
        { c with invites := [], enter_mode := some MODE_SET_KEY,
                 key := some (getParam msg 2 0) } actor hpriv rfl rfl
      have h2 := set_key_of_some hpriv2 hlt (by simp)
      simp [applyMode, h1, h2]
  · intro hk hm hi
    have h1 := set_key_of_none hpriv hlt hk
    have hpriv2 := priv_none_update c
      { c with invites := [], enter_mode := some MODE_SET_KEY,
               key := some (getParam msg 2 0) } actor hpriv rfl rfl
    have h2 := remove_key_eq hpriv2
    simp only [applyMode, h1, h2]
    cases c
    simp_all
  · cases hl : parse_usize (getParam msg 2 0) with
    | none =>
      have h1 := set_limit_eq hpriv hlt
      rw [hl] at h1
      simp [applyMode, h1]
    | some l =>
      have h1 := set_limit_eq hpriv hlt
      rw [hl] at h1
      have hpriv2 := priv_none_update c { c with limit := some l } actor hpriv rfl rfl
      have h2 := set_limit_eq hpriv2 hlt
      rw [hl] at h2
      simp [applyMode, h1, h2]
  · intro hlim
    cases hl : parse_usize (getParam msg 2 0) with
    | none =>
      have h1 := set_limit_eq hpriv hlt
      rw [hl] at h1
      have h2 := remove_limit_eq hpriv
      simp only [applyMode, h1, h2]
      cases c
      simp_all
    | some l =>
      have h1 := set_limit_eq hpriv hlt
      rw [hl] at h1
      have hpriv2 := priv_none_update c { c with limit := some l } actor hpriv rfl rfl
      have h2 := remove_limit_eq hpriv2
      simp only [applyMode, h1, h2]
      cases c
      simp_all
  · have h1 := set_invite_eq hpriv
    have hpriv2 := priv_none_update c
      { c with key := none, enter_mode := some MODE_SET_INVITE } actor hpriv rfl rfl
    have h2 := set_invite_eq hpriv2
    simp [applyMode, h1, h2]
  · intro hm hk hi
    have h1 := set_invite_eq hpriv
    have hpriv2 := priv_none_update c
      { c with key := none, enter_mode := some MODE_SET_INVITE } actor hpriv rfl rfl
    have h2 := remove_invite_eq hpriv2
    simp only [applyMode, h1, h2]
    cases c
    simp_all
  · by_cases ht : c.is_user_on_channel (getParam msg 2 0) = true
    · by_cases hop : c.is_operator (getParam msg 2 0) = true
      · have h1 : c.give_operator_privileges msg actor = .ok c := by
          unfold Channel.give_operator_privileges
          simp [hlt, hpriv, ht, hop]
        simp [applyMode, h1]
      · have h1 : c.give_operator_privileges msg actor =
            .ok { c with operators := c.operators ++ [getParam msg 2 0] } := by
          unfold Channel.give_operator_privileges
          simp [hlt, hpriv, ht, hop]
        have hpriv2 : ({ c with operators := c.operators ++ [getParam msg 2 0]
            : Channel }).reply_user_using_privileges actor = none := by
          rw [priv_none_iff] at hpriv ⊢
          refine ⟨hpriv.1, ?_⟩
          have := hpriv.2
          simp at this ⊢
          exact Or.inl this
        have ht2 : ({ c with operators := c.operators ++ [getParam msg 2 0]
            : Channel }).is_user_on_channel (getParam msg 2 0) = true := by
          simpa [Channel.is_user_on_channel] using ht
        have hop2 : ({ c with operators := c.operators ++ [getParam msg 2 0]
            : Channel }).is_operator (getParam msg 2 0) = true := by
          simp [Channel.is_operator]
        have h2 : ({ c with operators := c.operators ++ [getParam msg 2 0]
            : Channel }).give_operator_privileges msg actor =
            .ok { c with operators := c.operators ++ [getParam msg 2 0] } := by
          unfold Channel.give_operator_privileges
          simp [hlt, hpriv2, ht2, hop2]
        simp [applyMode, h1, h2]
    · have h1 : c.give_operator_privileges msg actor =
          .error (NumericReply.new "401" "No such nick/channel".toList
            (some [c.name, getParam msg 2 0])) := by
        unfold Channel.give_operator_privileges
        simp [hlt, hpriv, ht]
      simp [applyMode, h1]
  · intro ht hop hne
    have h1 : c.give_operator_privileges msg actor =
        .ok { c with operators := c.operators ++ [getParam msg 2 0] } := by
      unfold Channel.give_operator_privileges
      simp [hlt, hpriv, ht, hop]
    have hpriv2 : ({ c with operators := c.operators ++ [getParam msg 2 0]
        : Channel }).reply_user_using_privileges actor = none := by
      rw [priv_none_iff] at hpriv ⊢
      refine ⟨hpriv.1, ?_⟩
      have := hpriv.2
      simp at this ⊢
      exact Or.inl this
    have ht2 : ({ c with operators := c.operators ++ [getParam msg 2 0]
        : Channel }).is_user_on_channel (getParam msg 2 0) = true := by
      simpa [Channel.is_user_on_channel] using ht
    have hop2 : ({ c with operators := c.operators ++ [getParam msg 2 0]
        : Channel }).is_operator (getParam msg 2 0) = true := by
      simp [Channel.is_operator]
    have herase : (c.operators ++ [getParam msg 2 0]).erase (getParam msg 2 0) =
        c.operators := by
      rw [List.erase_append_right]
      · simp
      · simpa [Channel.is_operator] using hop
    have h2 : ({ c with operators := c.operators ++ [getParam msg 2 0]
        : Channel }).remove_operator_privileges msg actor =
        .ok { c with operators := c.operators } := by
      unfold Channel.remove_operator_privileges
      simp [hlt, hpriv2, ht2, hop2, hne, herase]
    simp only [applyMode, h1, h2]
  · have h1 : c.set_operator_settable_topic actor =
        .ok { c with operator_settable_topic := true } := by
      unfold Channel.set_operator_settable_topic
      simp [hpriv]
    have hpriv2 := priv_none_update c
      { c with operator_settable_topic := true } actor hpriv rfl rfl
    have h2 : ({ c with operator_settable_topic := true
        : Channel }).set_operator_settable_topic actor =
        .ok { c with operator_settable_topic := true } := by
      unfold Channel.set_operator_settable_topic
      simp [hpriv2]
    simp [applyMode, h1, h2]
  · intro hflag
    have h1 : c.set_operator_settable_topic actor =
        .ok { c with operator_settable_topic := true } := by
      unfold Channel.set_operator_settable_topic
      simp [hpriv]
    have hpriv2 := priv_none_update c
      { c with operator_settable_topic := true } actor hpriv rfl rfl
    have h2 : ({ c with operator_settable_topic := true
        : Channel }).remove_operator_settable_topic actor =
        .ok { c with operator_settable_topic := false } := by
      unfold Channel.remove_operator_settable_topic
      simp [hpriv2]
    simp only [applyMode, h1, h2]
    cases c
    simp_all
  · have h1 : c.set_as_secret actor = .ok { c with secret := true } := by
      unfold Channel.set_as_secret
      simp [hpriv]
    have hpriv2 := priv_none_update c { c with secret := true } actor hpriv rfl rfl
    have h2 : ({ c with secret := true : Channel }).set_as_secret actor =
        .ok { c with secret := true } := by
      unfold Channel.set_as_secret
      simp [hpriv2]
    simp [applyMode, h1, h2]
  · intro hflag
    have h1 : c.set_as_secret actor = .ok { c with secret := true } := by
      unfold Channel.set_as_secret
      simp [hpriv]
    have hpriv2 := priv_none_update c { c with secret := true } actor hpriv rfl rfl
    have h2 : ({ c with secret := true : Channel }).remove_secret_status actor =
        .ok { c with secret := false } := by
      unfold Channel.remove_secret_status
      simp [hpriv2]
    simp only [applyMode, h1, h2]
    cases c
    simp_all

/-- Witness for C6 (amended): `+k` applied twice on a fresh channel equals
applying it once. -/
theorem mode_toggle_algebra_witness :
    ((Channel.new "#c".toList (mkUser "a".toList)).reply_user_using_privileges
        "a".toList = none) ∧
    (3 ≤ params_total_count
      ⟨none, "MODE".toList, [["#c".toList], ["+k".toList], ["pass".toList]]⟩) ∧
    applyMode
        (applyMode (Channel.new "#c".toList (mkUser "a".toList))
          (fun ch => ch.set_key
            ⟨none, "MODE".toList, [["#c".toList], ["+k".toList], ["pass".toList]]⟩
            "a".toList))
        (fun ch => ch.set_key
          ⟨none, "MODE".toList, [["#c".toList], ["+k".toList], ["pass".toList]]⟩
          "a".toList) =
      applyMode (Channel.new "#c".toList (mkUser "a".toList))
        (fun ch => ch.set_key
          ⟨none, "MODE".toList, [["#c".toList], ["+k".toList], ["pass".toList]]⟩
          "a".toList) :=
  ⟨by decide, by decide,
   (mode_toggle_algebra (Channel.new "#c".toList (mkUser "a".toList)) "a".toList
     ⟨none, "MODE".toList, [["#c".toList], ["+k".toList], ["pass".toList]]⟩
     (by decide) (by decide)).1⟩

/-! Association-list lemmas. -/

theorem alist_get_insert {α : Type} (m : List (Str × α)) (k k' : Str) (v : α) :
    alist_get (alist_insert m k v) k' = if k = k' then some v else alist_get m k' := by
  induction m with
  | nil => simp [alist_insert, alist_get]
  | cons e rest ih =>
    obtain ⟨ek, ev⟩ := e
    by_cases h1 : ek = k
    · subst h1
      by_cases h2 : ek = k'
      · simp [alist_insert, alist_get, h2]
      · simp [alist_insert, alist_get, h2]
    · by_cases h2 : ek = k'
      · subst h2
        have : k ≠ ek := fun hk => h1 hk.symm
        simp [alist_insert, alist_get, h1, this]
      · simp [alist_insert, alist_get, h1, h2, ih]

theorem alist_get_remove {α : Type} (m : List (Str × α)) (k k' : Str) :
    alist_get (alist_remove m k) k' = if k = k' then none else alist_get m k' := by
  induction m with
  | nil => simp [alist_remove, alist_get]
  | cons e rest ih =>
    obtain ⟨ek, ev⟩ := e
    by_cases h1 : ek = k
    · subst h1
      by_cases h2 : ek = k'
      · subst h2
        simp [alist_remove, alist_get, ih]
      · simp [alist_remove, alist_get, h2, ih]
    · by_cases h2 : ek = k'
      · subst h2
        have : k ≠ ek := fun hk => h1 hk.symm
        simp [alist_remove, alist_get, h1, this]
      · simp [alist_remove, alist_get, h1, h2, ih]

theorem alist_insert_ne_nil {α : Type} (m : List (Str × α)) (k : Str) (v : α) :
    alist_insert m k v ≠ [] := by
  cases m with
  | nil => simp [alist_insert]
  | cons e rest =>
    obtain ⟨ek, ev⟩ := e
    by_cases h : ek = k <;> simp [alist_insert, h]

theorem alist_isSome_ne_nil {α : Type} {m : List (Str × α)} {k : Str}
    (h : (alist_get m k).isSome = true) : m ≠ [] := by
  cases m with
  | nil => simp [alist_get] at h
  | cons e rest => simp

/-! Shape lemmas: which records each channel operation can produce. -/

theorem join_state_cases (c : Channel) (u : User) (key : Option Str) :
    (c.join u key).2 = c ∨
    (c.join u key).2 = { c with users := alist_insert c.users u.nickname u } := by
  unfold Channel.join
  repeat' split
  all_goals simp

theorem set_key_fields {c c' : Channel} {msg : Message} {actor : Str}
    (h : c.set_key msg actor = .ok c') :
    c'.users = c.users ∧ c'.operators = c.operators := by
  unfold Channel.set_key at h
  repeat' split at h
  all_goals cases h
  all_goals exact ⟨rfl, rfl⟩

theorem remove_key_fields {c c' : Channel} {actor : Str}
    (h : c.remove_key actor = .ok c') :
    c'.users = c.users ∧ c'.operators = c.operators := by
  unfold Channel.remove_key at h
  repeat' split at h
  all_goals cases h
  all_goals exact ⟨rfl, rfl⟩

theorem set_limit_fields {c c' : Channel} {msg : Message} {actor : Str}
    (h : c.set_limit msg actor = .ok c') :
    c'.users = c.users ∧ c'.operators = c.operators := by
  unfold Channel.set_limit at h
  repeat' split at h
  all_goals cases h
  all_goals exact ⟨rfl, rfl⟩

theorem remove_limit_fields {c c' : Channel} {actor : Str}
    (h : c.remove_limit actor = .ok c') :
    c'.users = c.users ∧ c'.operators = c.operators := by
  unfold Channel.remove_limit at h
  repeat' split at h
  all_goals cases h
  all_goals exact ⟨rfl, rfl⟩

theorem set_invite_fields {c c' : Channel} {actor : Str}
    (h : c.set_as_invite_only actor = .ok c') :
    c'.users = c.users ∧ c'.operators = c.operators := by
  unfold Channel.set_as_invite_only at h
  repeat' split at h
  all_goals cases h
  all_goals exact ⟨rfl, rfl⟩

theorem remove_invite_fields {c c' : Channel} {actor : Str}
    (h : c.remove_invite_only_status actor = .ok c') :
    c'.users = c.users ∧ c'.operators = c.operators := by
  unfold Channel.remove_invite_only_status at h
  repeat' split at h
  all_goals cases h
  all_goals exact ⟨rfl, rfl⟩

theorem set_secret_fields {c c' : Channel} {actor : Str}
    (h : c.set_as_secret actor = .ok c') :
    c'.users = c.users ∧ c'.operators = c.operators := by
  unfold Channel.set_as_secret at h
  repeat' split at h
  all_goals cases h
  all_goals exact ⟨rfl, rfl⟩

theorem remove_secret_fields {c c' : Channel} {actor : Str}
    (h : c.remove_secret_status actor = .ok c') :
    c'.users = c.users ∧ c'.operators = c.operators := by
  unfold Channel.remove_secret_status at h
  repeat' split at h
  all_goals cases h
  all_goals exact ⟨rfl, rfl⟩

theorem set_op_topic_fields {c c' : Channel} {actor : Str}
    (h : c.set_operator_settable_topic actor = .ok c') :
    c'.users = c.users ∧ c'.operators = c.operators := by
  unfold Channel.set_operator_settable_topic at h
  repeat' split at h
  all_goals cases h
  all_goals exact ⟨rfl, rfl⟩

theorem remove_op_topic_fields {c c' : Channel} {actor : Str}
    (h : c.remove_operator_settable_topic actor = .ok c') :
    c'.users = c.users ∧ c'.operators = c.operators := by
  unfold Channel.remove_operator_settable_topic at h
  repeat' split at h
  all_goals cases h
  all_goals exact ⟨rfl, rfl⟩

theorem set_ban_fields {c c' : Channel} {msg : Message} {actor : Str}
    (h : c.set_ban msg actor = .ok c') :
    c'.users = c.users ∧ c'.operators = c.operators := by
  unfold Channel.set_ban at h
  repeat' split at h
  all_goals cases h
  all_goals exact ⟨rfl, rfl⟩

theorem remove_ban_fields {c c' : Channel} {msg : Message} {actor : Str}
    (h : c.remove_ban msg actor = .ok c') :
    c'.users = c.users ∧ c'.operators = c.operators := by
  unfold Channel.remove_ban at h
  repeat' split at h
  all_goals cases h
  all_goals exact ⟨rfl, rfl⟩

theorem set_topic_fields {c c' : Channel} {actor topic : Str} {r : NumericReply}
    (h : c.set_topic actor topic = .ok (r, c')) :
    c'.users = c.users ∧ c'.operators = c.operators := by
  unfold Channel.set_topic at h
  repeat' split at h
  all_goals cases h
  all_goals exact ⟨rfl, rfl⟩

theorem give_op_state_cases {c c' : Channel} {msg : Message} {actor : Str}
    (h : c.give_operator_privileges msg actor = .ok c') :
    c' = c ∨
    (c' = { c with operators := c.operators ++ [getParam msg 2 0] } ∧
     (alist_get c.users (getParam msg 2 0)).isSome = true ∧
     (getParam msg 2 0) ∉ c.operators) := by
  unfold Channel.give_operator_privileges at h
  by_cases h3 : params_total_count msg < 3
  · simp [h3] at h
  · rw [if_neg h3] at h
    cases hpv : c.reply_user_using_privileges actor with
    | some r => rw [hpv] at h; cases h
    | none =>
      rw [hpv] at h
      by_cases hm : c.is_user_on_channel (getParam msg 2 0) = true
      · simp only [hm] at h
        by_cases hop : c.is_operator (getParam msg 2 0) = true
        · simp [hop] at h
          exact Or.inl h.symm
        · simp [hop] at h
          refine Or.inr ⟨h.symm, by simpa [Channel.is_user_on_channel] using hm, ?_⟩
          simpa [Channel.is_operator] using hop
      · simp [hm] at h

theorem remove_op_state_cases {c c' : Channel} {msg : Message} {actor : Str}
    (h : c.remove_operator_privileges msg actor = .ok c') :
    c' = c ∨
    (c' = { c with operators := c.operators.erase (getParam msg 2 0) } ∧
     c.reply_user_using_privileges actor = none ∧
     actor ≠ getParam msg 2 0) := by
  unfold Channel.remove_operator_privileges at h
  by_cases h3 : params_total_count msg < 3
  · simp [h3] at h
  · rw [if_neg h3] at h
    cases hpv : c.reply_user_using_privileges actor with
    | some r => rw [hpv] at h; cases h
    | none =>
      rw [hpv] at h
      by_cases hself : actor = getParam msg 2 0
      · simp [hself] at h
        exact Or.inl h.symm
      · simp only [hself, if_neg, if_false] at h
        by_cases hm : c.is_user_on_channel (getParam msg 2 0) = true
        · simp only [hm] at h
          by_cases hop : c.is_operator (getParam msg 2 0) = true
          · simp [hop] at h
            exact Or.inr ⟨h.symm, rfl, hself⟩
          · simp [hop] at h
            exact Or.inl h.symm
        · simp [hm] at h

theorem kick_state_cases (c : Channel) (target actor : Str) :
    (c.kick target actor).2 = c ∨
    ((c.kick target actor).2 = (c.remove_user target).2 ∧
     c.reply_user_using_privileges actor = none ∧
     c.is_user_on_channel target = true ∧ target ≠ actor) := by
  unfold Channel.kick
  cases hpv : c.reply_user_using_privileges actor with
  | some r => simp
  | none =>
    by_cases hm : c.is_user_on_channel target = true
    · by_cases hself : target = actor
      · subst hself
        simp [hm]
      · simp [hm, hself]
    · simp [hm]

theorem remove_user_state (c : Channel) (n : Str) :
    (c.remove_user n).2 = c ∨
    (c.remove_user n).2 =
      { c with users := alist_remove c.users n, operators := c.operators.erase n } := by
  unfold Channel.remove_user
  cases h : alist_get c.users n <;> simp

theorem remove_user_pair (c : Channel) (n : Str) :
    c.remove_user n =
      (alist_get c.users n,
       match alist_get c.users n with
       | none => c
       | some _ =>
         { c with users := alist_remove c.users n, operators := c.operators.erase n }) := by
  unfold Channel.remove_user
  cases h : alist_get c.users n <;> simp

theorem chan_inv_of_fields {c c' : Channel} (hu : c'.users = c.users)
    (ho : c'.operators = c.operators) (h : chan_inv c) : chan_inv c' := by
  unfold chan_inv at *
  rw [hu, ho]
  exact h

theorem chan_inv_applyMode (c : Channel) (f : Channel → Except NumericReply Channel)
    (hf : ∀ c', f c = .ok c' → c'.users = c.users ∧ c'.operators = c.operators)
    (h : chan_inv c) : chan_inv (applyMode c f) := by
  unfold applyMode
  cases hfc : f c with
  | error e => exact h
  | ok c' => exact chan_inv_of_fields (hf c' hfc).1 (hf c' hfc).2 h

theorem chan_inv_join (c : Channel) (u : User) (key : Option Str) (h : chan_inv c) :
    chan_inv (c.join u key).2 := by
  rcases join_state_cases c u key with hj | hj
  · rw [hj]; exact h
  · rw [hj]
    obtain ⟨hU, hO, hI2, hND⟩ := h
    refine ⟨alist_insert_ne_nil _ _ _, hO, ?_, hND⟩
    intro n hn
    rw [alist_get_insert]
    by_cases he : u.nickname = n
    · simp [he]
    · rw [if_neg he]
      exact hI2 n hn

/-- Invariant preservation for the removal of one member when another
member-operator `keep` survives it. -/
theorem chan_inv_remove_member (c : Channel) (target keep : Str)
    (hkm : (alist_get c.users keep).isSome = true)
    (hko : keep ∈ c.operators) (hne : keep ≠ target) (h : chan_inv c) :
    chan_inv { c with users := alist_remove c.users target,
                      operators := c.operators.erase target } := by
  obtain ⟨hU, hO, hI2, hND⟩ := h
  refine ⟨?_, ?_, ?_, ?_⟩
  · have hg : (alist_get (alist_remove c.users target) keep).isSome = true := by
      rw [alist_get_remove, if_neg (Ne.symm hne)]
      exact hkm
    exact alist_isSome_ne_nil hg
  · have hmem : keep ∈ c.operators.erase target := (hND.mem_erase_iff).mpr ⟨hne, hko⟩
    intro hnil
    have hnil' : c.operators.erase target = [] := hnil
    rw [hnil'] at hmem
    simp at hmem
  · intro n hn
    have hn' : n ∈ c.operators := List.mem_of_mem_erase hn
    have hne2 : n ≠ target := ((hND.mem_erase_iff).mp hn).1
    rw [alist_get_remove, if_neg (Ne.symm hne2)]
    exact hI2 n hn'
  · exact hND.erase target

theorem chan_inv_kick (c : Channel) (target actor : Str) (h : chan_inv c) :
    chan_inv (c.kick target actor).2 := by
  rcases kick_state_cases c target actor with hk | ⟨hk, hpv, hmem, hne⟩
  · rw [hk]; exact h
  · rw [hk]
    rcases remove_user_state c target with hr | hr
    · rw [hr]; exact h
    · rw [hr]
      rw [priv_none_iff] at hpv
      have hko : actor ∈ c.operators := by simpa using hpv.2
      exact chan_inv_remove_member c target actor hpv.1 hko (Ne.symm hne) h

theorem part_snd_absent (c : Channel) (u : User)
    (halg : alist_get c.users u.nickname = none) : (c.part u).2 = c := by
  unfold Channel.part
  rw [remove_user_pair, halg]

theorem part_snd_empty (c : Channel) (u : User) {v : User}
    (halg : alist_get c.users u.nickname = some v)
    (hemp : alist_remove c.users u.nickname = []) :
    (c.part u).2 = { c with users := alist_remove c.users u.nickname,
                            operators := c.operators.erase u.nickname } := by
  unfold Channel.part
  rw [remove_user_pair, halg]
  simp [Channel.is_empty, hemp]

theorem part_snd_promote (c : Channel) (u : User) {v v' : User} {nick : Str}
    {rest : List (Str × User)}
    (halg : alist_get c.users u.nickname = some v)
    (hcase : alist_remove c.users u.nickname = (nick, v') :: rest)
    (hops : c.operators.erase u.nickname = []) :
    (c.part u).2 = { c with users := alist_remove c.users u.nickname,
                            operators := c.operators.erase u.nickname ++ [nick] } := by
  unfold Channel.part
  rw [remove_user_pair, halg]
  simp [Channel.is_empty, hcase, hops]

theorem part_snd_keep (c : Channel) (u : User) {v : User}
    (halg : alist_get c.users u.nickname = some v)
    (hemp : alist_remove c.users u.nickname ≠ [])
    (hops : c.operators.erase u.nickname ≠ []) :
    (c.part u).2 = { c with users := alist_remove c.users u.nickname,
                            operators := c.operators.erase u.nickname } := by
  unfold Channel.part
  rw [remove_user_pair, halg]
  simp [Channel.is_empty, List.isEmpty_iff, hemp, hops]

theorem chan_inv_part (c : Channel) (u : User) (h : chan_inv c)
    (hne : ¬ (c.part u).2.is_empty = true) : chan_inv (c.part u).2 := by
  obtain ⟨hU, hO, hI2, hND⟩ := h
  cases halg : alist_get c.users u.nickname with
  | none =>
    rw [part_snd_absent c u halg]
    exact ⟨hU, hO, hI2, hND⟩
  | some v =>
    by_cases hemp : alist_remove c.users u.nickname = []
    · rw [part_snd_empty c u halg hemp] at hne
      refine absurd ?_ hne
      simp [Channel.is_empty, hemp]
    · by_cases hops : c.operators.erase u.nickname = []
      · cases hcase : alist_remove c.users u.nickname with
        | nil => exact absurd hcase hemp
        | cons e rest =>
          obtain ⟨nick, v'⟩ := e
          rw [part_snd_promote c u halg hcase hops]
          refine ⟨by simp [hcase], by simp [hops], ?_, by simp [hops]⟩
          intro n hn
          have hn' : n = nick := by
            rw [hops] at hn
            simpa using hn
          subst hn'
          have : alist_get (alist_remove c.users u.nickname) n = some v' := by
            rw [hcase]
            simp [alist_get]
          simp only [this]
          rfl
      · rw [part_snd_keep c u halg hemp hops]
        refine ⟨hemp, hops, ?_, hND.erase u.nickname⟩
        intro n hn
        have hn' : n ∈ c.operators := List.mem_of_mem_erase hn
        have hne2 : n ≠ u.nickname := ((hND.mem_erase_iff).mp hn).1
        rw [alist_get_remove, if_neg (Ne.symm hne2)]
        exact hI2 n hn'

theorem chanInv_step (s : Option Channel) (op : ChanOp) (h : ChanInv s) :
    ChanInv (chan_step s op) := by
  cases s with
  | none =>
    intro c hc
    simp [chan_step] at hc
  | some c =>
    have hc := h c rfl
    obtain ⟨hU, hO, hI2, hND⟩ := hc
    cases op with
    | join u key =>
      intro c' hc'
      simp only [chan_step, Option.some.injEq] at hc'
      subst hc'
      exact chan_inv_join c u key ⟨hU, hO, hI2, hND⟩
    | part u =>
      intro c' hc'
      simp only [chan_step] at hc'
      by_cases hemp : (c.part u).2.is_empty = true
      · simp [hemp] at hc'
      · simp [hemp] at hc'
        subst hc'
        exact chan_inv_part c u ⟨hU, hO, hI2, hND⟩ (by simp [hemp])
    | kick target actor =>
      intro c' hc'
      simp only [chan_step, Option.some.injEq] at hc'
      subst hc'
      exact chan_inv_kick c target actor ⟨hU, hO, hI2, hND⟩
    | setKey msg actor =>
      intro c' hc'
      simp only [chan_step, Option.some.injEq] at hc'
      subst hc'
      exact chan_inv_applyMode c _ (fun c'' hok => set_key_fields hok) ⟨hU, hO, hI2, hND⟩
    | removeKey actor =>
      intro c' hc'
      simp only [chan_step, Option.some.injEq] at hc'
      subst hc'
      exact chan_inv_applyMode c _ (fun c'' hok => remove_key_fields hok) ⟨hU, hO, hI2, hND⟩
    | setLimit msg actor =>
      intro c' hc'
      simp only [chan_step, Option.some.injEq] at hc'
      subst hc'
      exact chan_inv_applyMode c _ (fun c'' hok => set_limit_fields hok) ⟨hU, hO, hI2, hND⟩
    | removeLimit actor =>
      intro c' hc'
      simp only [chan_step, Option.some.injEq] at hc'
      subst hc'
      exact chan_inv_applyMode c _ (fun c'' hok => remove_limit_fields hok) ⟨hU, hO, hI2, hND⟩
    | setInviteOnly actor =>
      intro c' hc'
      simp only [chan_step, Option.some.injEq] at hc'
      subst hc'
      exact chan_inv_applyMode c _ (fun c'' hok => set_invite_fields hok) ⟨hU, hO, hI2, hND⟩
    | removeInviteOnly actor =>
      intro c' hc'
      simp only [chan_step, Option.some.injEq] at hc'
      subst hc'
      exact chan_inv_applyMode c _ (fun c'' hok => remove_invite_fields hok) ⟨hU, hO, hI2, hND⟩
    | setSecret actor =>
      intro c' hc'
      simp only [chan_step, Option.some.injEq] at hc'
      subst hc'
      exact chan_inv_applyMode c _ (fun c'' hok => set_secret_fields hok) ⟨hU, hO, hI2, hND⟩
    | removeSecret actor =>
      intro c' hc'
      simp only [chan_step, Option.some.injEq] at hc'
      subst hc'
      exact chan_inv_applyMode c _ (fun c'' hok => remove_secret_fields hok) ⟨hU, hO, hI2, hND⟩
    | setOpTopic actor =>
      intro c' hc'
      simp only [chan_step, Option.some.injEq] at hc'
      subst hc'
      exact chan_inv_applyMode c _ (fun c'' hok => set_op_topic_fields hok) ⟨hU, hO, hI2, hND⟩
    | removeOpTopic actor =>
      intro c' hc'
      simp only [chan_step, Option.some.injEq] at hc'
      subst hc'
      exact chan_inv_applyMode c _ (fun c'' hok => remove_op_topic_fields hok)
        ⟨hU, hO, hI2, hND⟩
    | setBan msg actor =>
      intro c' hc'
      simp only [chan_step, Option.some.injEq] at hc'
      subst hc'
      exact chan_inv_applyMode c _ (fun c'' hok => set_ban_fields hok) ⟨hU, hO, hI2, hND⟩
    | removeBan msg actor =>
      intro c' hc'
      simp only [chan_step, Option.some.injEq] at hc'
      subst hc'
      exact chan_inv_applyMode c _ (fun c'' hok => remove_ban_fields hok) ⟨hU, hO, hI2, hND⟩
    | giveOp msg actor =>
      intro c' hc'
      simp only [chan_step, Option.some.injEq] at hc'
      subst hc'
      simp only [applyMode]
      cases hok : c.give_operator_privileges msg actor with
      | error e => exact ⟨hU, hO, hI2, hND⟩
      | ok c'' =>
        rcases give_op_state_cases hok with hcc | ⟨hcc, hmem, hnotop⟩
        · rw [hcc]; exact ⟨hU, hO, hI2, hND⟩
        · rw [hcc]
          refine ⟨hU, by simp, ?_, ?_⟩
          · intro n hn
            simp at hn
            rcases hn with hn | hn
            · exact hI2 n hn
            · subst hn
              exact hmem
          · rw [List.nodup_append]
            refine ⟨hND, by simp, ?_⟩
            intro a ha hat
            simp at hat
            subst hat
            exact hnotop ha
    | removeOp msg actor =>
      intro c' hc'
      simp only [chan_step, Option.some.injEq] at hc'
      subst hc'
      simp only [applyMode]
      cases hok : c.remove_operator_privileges msg actor with
      | error e => exact ⟨hU, hO, hI2, hND⟩
      | ok c'' =>
        rcases remove_op_state_cases hok with hcc | ⟨hcc, hpv, hselfne⟩
        · rw [hcc]; exact ⟨hU, hO, hI2, hND⟩
        · rw [hcc]
          rw [priv_none_iff] at hpv
          have hao : actor ∈ c.operators := by simpa using hpv.2
          have hmem2 : actor ∈ c.operators.erase (getParam msg 2 0) :=
            (hND.mem_erase_iff).mpr ⟨hselfne, hao⟩
          refine ⟨hU, ?_, ?_, hND.erase _⟩
          · intro hnil
            have hnil' : c.operators.erase (getParam msg 2 0) = [] := hnil
            rw [hnil'] at hmem2
            simp at hmem2
          · intro n hn
            exact hI2 n (List.mem_of_mem_erase hn)
    | setTopic actor topic =>
      intro c' hc'
      simp only [chan_step] at hc'
      cases hst : c.set_topic actor topic with
      | error e =>
        rw [hst] at hc'
        simp at hc'
        subst hc'
        exact ⟨hU, hO, hI2, hND⟩
      | ok pr =>
        obtain ⟨r, c''⟩ := pr
        rw [hst] at hc'
        simp at hc'
        subst hc'
        exact chan_inv_of_fields (set_topic_fields hst).1 (set_topic_fields hst).2
          ⟨hU, hO, hI2, hND⟩

/-- C7 counterexample: starting from `Channel::new` with operator `a`, after
`b` joins, the multiserver kick path (`handle_kick_multiserver`, which
removes members via `remove_user` with no promotion) kicks `a` and leaves a
live channel whose members map is non-empty but whose operators list is
empty — invariant I3 of the claim is violated by the kick path the claim
includes. -/
theorem multiserver_kick_leaves_no_operator :
    c7kicked.users ≠ [] ∧ c7kicked.operators = [] := by
  constructor
  · decide
  · decide

/-- C7 (amended): after every sequence of client-facing operations drawn from
JOIN, PART (with deletion of an emptied channel), KICK through
`Channel::kick`, MODE and TOPIC, a channel created by `Channel::new` keeps
the invariants: members non-empty while it exists, every operator a member,
and at least one operator (PART promotes a member when the last operator
leaves).  The peer-side kick handler `handle_kick_multiserver` is NOT in
this set: it removes the kicked user with no promotion and can leave an
operatorless or empty-but-undeleted channel, as the counterexample shows. -/
theorem channel_invariants_preserved (name : Str) (u : User) (ops : List ChanOp) :
    ChanInv (chan_run ops (some (Channel.new name u))) := by
  have hbase : ChanInv (some (Channel.new name u)) := by
    intro c hc
    simp only [Option.some.injEq] at hc
    subst hc
    refine ⟨by simp [Channel.new], by simp [Channel.new], ?_, by simp [Channel.new]⟩
    intro n hn
    simp [Channel.new] at hn
    subst hn
    simp [Channel.new, alist_get]
  suffices hs : ∀ (l : List ChanOp) (s : Option Channel), ChanInv s → ChanInv (chan_run l s) by
    exact hs ops _ hbase
  intro l
  induction l with
  | nil =>
    intro s hsv
    simpa [chan_run] using hsv
  | cons op rest ih =>
    intro s hsv
    have h1 := chanInv_step s op hsv
    simpa [chan_run] using ih _ h1

/-- The member loop of the channel path produces exactly the per-member
routing description, provided the sender and every member are in the user
map (the source would otherwise error or panic). -/
theorem send_to_channel_members_spec (st : ServerState) (sender : Str) (su : User)
    (hsender : alist_get st.users sender = some su) :
    ∀ members : List (Str × User),
      (∀ p ∈ members, (alist_get st.users p.1).isSome = true) →
      send_to_channel_members st sender members =
        .ok (privmsg_channel_route st su.server_name sender members) := by
  intro members
  induction members with
  | nil => intro _; rfl
  | cons e rest ih =>
    intro h
    obtain ⟨nick, uu⟩ := e
    have hnick : (alist_get st.users nick).isSome = true := h ⟨nick, uu⟩ (by simp)
    obtain ⟨un, hun⟩ := Option.isSome_iff_exists.mp hnick
    have hrest := ih (fun p hp => h p (by simp [hp]))
    by_cases hin : nick ∈ st.users_clients
    · have hsp : send_priv_msg st sender nick (st.users_clients.contains nick) =
          .ok true := by
        unfold send_priv_msg
        simp [hin]
      by_cases hns : nick = sender
      · subst hns
        unfold send_to_channel_members privmsg_channel_route
        rw [hsp]
        simp [hrest]
      · have hsr : send_message_to_receiver st nick = .ok [.deliver nick] := by
          unfold send_message_to_receiver
          simp [hin]
        unfold send_to_channel_members privmsg_channel_route
        rw [hsp]
        simp [hns, hsr, hrest, hin]
    · by_cases hsrv : un.server_name = su.server_name
      · have hsp : send_priv_msg st sender nick (st.users_clients.contains nick) =
            .ok false := by
          unfold send_priv_msg
          simp [hin, hsender, hun, hsrv]
        unfold send_to_channel_members privmsg_channel_route
        rw [hsp]
        simp [hrest, hin, hun, hsrv]
      · have hns : nick ≠ sender := by
          intro heq
          subst heq
          rw [hsender] at hun
          cases hun
          exact hsrv rfl
        have hsp : send_priv_msg st sender nick (st.users_clients.contains nick) =
            .ok true := by
          unfold send_priv_msg
          simp [hin, hsender, hun]
          exact fun he => absurd he.symm hsrv
        have hsr : send_message_to_receiver st nick = .ok [.forward un.server_name] := by
          unfold send_message_to_receiver
          simp [hin, hun]
        unfold send_to_channel_members privmsg_channel_route
        rw [hsp]
        simp [hns, hsr, hrest, hin, hun, hsrv]

/-- C8 counterexample: the dispatch tests `contains('#')`, not "begins
with": a PRIVMSG whose target is the locally connected user `a#b` (a
nickname valid under the registration rules, which only forbid a LEADING
`#`, `&` or `:`) takes the channel path and dies with the CRITICAL
missing-channel error instead of being delivered to that user's session. -/
theorem privmsg_contains_dispatch :
    (getParam c8msg 0 0).head? ≠ some '#' ∧
    (getParam c8msg 0 0).head? ≠ some '&' ∧
    c8state.users_clients.contains (getParam c8msg 0 0) = true ∧
    handle_private_message c8state c8msg =
      .error ⟨"CRITICAL", "Couldn't get channel"⟩ := by
  refine ⟨by decide, by decide, by decide, rfl⟩

/-- C8 (amended): the coordinator treats the PRIVMSG target as a channel iff
it CONTAINS `#` or `&` (anywhere, not only in front).  On the channel path
the message is posted once to the local session of every member except the
sender, and for every member whose home server differs from the sender's
one forward is sent to that member's home server — once per such member,
so several members sharing a remote server produce several forwards.  A
non-channel target is delivered to its local session when connected, and
otherwise forwarded once to the target's home server. -/
theorem privmsg_routing (st : ServerState) (msg : Message) (su : User) (ch : Channel)
    (hsender : alist_get st.users (msg.pfx.getD []) = some su)
    (hmembers : ∀ p ∈ ch.users, (alist_get st.users p.1).isSome = true) :
    (((getParam msg 0 0).contains '#' = true ∨ (getParam msg 0 0).contains '&' = true) →
      alist_get st.channels (getParam msg 0 0) = some ch →
      handle_private_message st msg =
        .ok (privmsg_channel_route st su.server_name (msg.pfx.getD []) ch.users)) ∧
    (¬ ((getParam msg 0 0).contains '#' = true ∨ (getParam msg 0 0).contains '&' = true) →
      getParam msg 0 0 ∈ st.users_clients →
      handle_private_message st msg = .ok [.deliver (getParam msg 0 0)]) ∧
    (∀ ur : User,
      ¬ ((getParam msg 0 0).contains '#' = true ∨ (getParam msg 0 0).contains '&' = true) →
      getParam msg 0 0 ∉ st.users_clients →
      alist_get st.users (getParam msg 0 0) = some ur →
      handle_private_message st msg = .ok [.forward ur.server_name]) := by
  refine ⟨?_, ?_, ?_⟩
  · intro hdisp hch
    unfold handle_private_message
    rw [if_pos hdisp]
    unfold send_message_to_channel
    rw [hch]
    exact send_to_channel_members_spec st (msg.pfx.getD []) su hsender ch.users hmembers
  · intro hdisp hconn
    unfold handle_private_message
    rw [if_neg hdisp]
    unfold send_message_to_receiver
    simp [hconn]
  · intro ur hdisp hconn hur
    unfold handle_private_message
    rw [if_neg hdisp]
    unfold send_message_to_receiver
    simp [hconn, hur]

/-- Witness for C8 (amended): a two-member federated channel `#c` with the
sender local and the other member on the remote server `s2`; the message is
forwarded once to `s2`. -/
theorem privmsg_routing_witness :
    (alist_get
        [("a".toList, mkUser "a".toList), ("b".toList, mkUserOn "b".toList "s2".toList)]
        "a".toList = some (mkUser "a".toList)) ∧
    handle_private_message
        ⟨[("a".toList, mkUser "a".toList), ("b".toList, mkUserOn "b".toList "s2".toList)],
         ["a".toList],
         [("#c".toList,
           { Channel.new "#c".toList (mkUser "a".toList) with
             users := [("a".toList, mkUser "a".toList),
                       ("b".toList, mkUserOn "b".toList "s2".toList)] })]⟩
        ⟨some "a".toList, "PRIVMSG".toList, [["#c".toList], ["hola".toList]]⟩ =
      .ok [.forward "s2".toList] := by
  refine ⟨by decide, ?_⟩
  have h := (privmsg_routing
    ⟨[("a".toList, mkUser "a".toList), ("b".toList, mkUserOn "b".toList "s2".toList)],
     ["a".toList],
     [("#c".toList,
       { Channel.new "#c".toList (mkUser "a".toList) with
         users := [("a".toList, mkUser "a".toList),
                   ("b".toList, mkUserOn "b".toList "s2".toList)] })]⟩
    ⟨some "a".toList, "PRIVMSG".toList, [["#c".toList], ["hola".toList]]⟩
    (mkUser "a".toList)
    ({ Channel.new "#c".toList (mkUser "a".toList) with
       users := [("a".toList, mkUser "a".toList),
                 ("b".toList, mkUserOn "b".toList "s2".toList)] })
    (by decide) (by decide)).1 (Or.inl (by decide)) (by decide)
  rw [h]
  rfl

/-- C9 counterexample: an AWAY request that repeats the user's current away
text — the local state does NOT change — makes the handler call
`server_rol.notify`, which on a main server sends the message to every
connected secondary; with one peer `s2` connected the fan-out reaches it,
contradicting the claimed idempotency gate. -/
theorem away_unchanged_still_notifies :
    handle_away true c9users c9msg = .ok (c9users, [.notifyAll]) ∧
    rol_sends true ["s2".toList] "m".toList .notifyAll = ["s2".toList] := by
  exact ⟨rfl, rfl⟩

/-- C9 (amended): `handle_away` sets or clears the away text when the
request differs from the current state, and in THAT case fans out only on
the main server (to all peers but the user's home server; a secondary sends
nothing).  When the local state already matches the request the handler
calls `notify` — fanning the message out to every peer on a main, and to
the main on a secondary — the opposite of the claimed gate. -/
theorem away_handler_spec (is_main : Bool) (users : List (Str × User)) (msg : Message)
    (user : User)
    (hu : alist_get users (msg.pfx.getD []) = some user) :
    (params_total_count msg = 0 → user.away_message.isSome = true →
      handle_away is_main users msg =
        .ok (alist_insert users (msg.pfx.getD []) { user with away_message := none },
             if is_main then [.notifyAllBut user.server_name] else [])) ∧
    (params_total_count msg = 0 → user.away_message = none →
      handle_away is_main users msg = .ok (users, [.notifyAll])) ∧
    (params_total_count msg ≠ 0 → user.away_message ≠ some (getParam msg 0 0) →
      handle_away is_main users msg =
        .ok (alist_insert users (msg.pfx.getD [])
              { user with away_message := some (getParam msg 0 0) },
             if is_main then [.notifyAllBut user.server_name] else [])) ∧
    (params_total_count msg ≠ 0 → user.away_message = some (getParam msg 0 0) →
      handle_away is_main users msg = .ok (users, [.notifyAll])) := by
  refine ⟨?_, ?_, ?_, ?_⟩
  · intro h0 haway
    unfold handle_away
    simp [hu, h0, User.is_away, haway]
  · intro h0 haway
    unfold handle_away
    simp [hu, h0, User.is_away, haway]
  · intro h0 haway
    unfold handle_away
    simp [hu, h0, User.has_away_message, haway]
  · intro h0 haway
    unfold handle_away
    simp [hu, h0, User.has_away_message, haway]

/-- Witness for C9 (amended): clearing the away text of an away user on a
secondary server mutates the map and fans out nothing. -/
theorem away_handler_spec_witness :
    (alist_get c9users "a".toList =
      some { mkUser "a".toList with away_message := some "x".toList }) ∧
    handle_away false c9users ⟨some "a".toList, "AWAY".toList, []⟩ =
      .ok (alist_insert c9users "a".toList
            { { mkUser "a".toList with away_message := some "x".toList } with
              away_message := none }, []) := by
  refine ⟨by decide, ?_⟩
  have h := (away_handler_spec false c9users ⟨some "a".toList, "AWAY".toList, []⟩
    { mkUser "a".toList with away_message := some "x".toList } (by decide)).1
    (by decide) (by decide)
  rw [h]
  rfl

/-! Lemmas on the scanning helpers of the parser. -/

theorem next_whitespace_append_space (xs ys : Str) (h : ∀ c ∈ xs, ¬ c = ' ') :
    next_whitespace (xs ++ ' ' :: ys) = some xs.length := by
  induction xs with
  | nil => simp [next_whitespace]
  | cons c rest ih =>
    have hc : ¬ c = ' ' := h c (by simp)
    have := ih (fun d hd => h d (by simp [hd]))
    simp [next_whitespace, hc, this]

theorem next_whitespace_none (xs : Str) (h : ∀ c ∈ xs, ¬ c = ' ') :
    next_whitespace xs = none := by
  induction xs with
  | nil => rfl
  | cons c rest ih =>
    have hc : ¬ c = ' ' := h c (by simp)
    have := ih (fun d hd => h d (by simp [hd]))
    simp [next_whitespace, hc, this]

theorem eom_append (xs ys : Str) (h : ∀ c ∈ xs, ¬ c = '\r' ∧ ¬ c = '\n') :
    get_index_of_end_of_message (xs ++ '\r' :: '\n' :: ys) = .ok xs.length := by
  induction xs with
  | nil => rfl
  | cons c rest ih =>
    have hc := h c (by simp)
    have := ih (fun d hd => h d (by simp [hd]))
    simp [get_index_of_end_of_message, hc.1, hc.2, this, Except.map]

theorem has_crlf_iff (s : Str) :
    has_crlf s = true ↔ ∃ a b, s = a ++ '\r' :: '\n' :: b := by
  induction s with
  | nil =>
    simp [has_crlf]
  | cons c rest ih =>
    constructor
    · intro h
      simp [has_crlf] at h
      rcases h with ⟨hc, hh⟩ | h
      · subst hc
        cases rest with
        | nil => simp at hh
        | cons d tail =>
          simp at hh
          subst hh
          exact ⟨[], tail, rfl⟩
      · obtain ⟨a, b, hab⟩ := ih.mp h
        exact ⟨c :: a, b, by simp [hab]⟩
    · rintro ⟨a, b, hab⟩
      cases a with
      | nil =>
        simp at hab
        obtain ⟨h1, h2⟩ := hab
        subst h1
        simp [has_crlf, h2]
      | cons d tail =>
        simp at hab
        obtain ⟨h1, h2⟩ := hab
        subst h1
        have : has_crlf rest = true := ih.mpr ⟨tail, b, h2⟩
        simp [has_crlf, this]

theorem has_crlf_drop {s : Str} {n : Nat} (h : has_crlf (s.drop n) = true) :
    has_crlf s = true := by
  rw [has_crlf_iff] at h ⊢
  obtain ⟨a, b, hab⟩ := h
  refine ⟨s.take n ++ a, b, ?_⟩
  conv_lhs => rw [← List.take_append_drop n s]
  rw [hab]
  simp

theorem has_crlf_erase_front {s : Str} (h : has_crlf (erase_front_whitespaces s) = true) :
    has_crlf s = true := by
  unfold erase_front_whitespaces at h
  by_cases hall : s.all (fun c => c = ' ') = true
  · rw [if_pos hall] at h
    exact h
  · rw [if_neg hall] at h
    obtain ⟨t, ht⟩ := List.dropWhile_suffix (l := s) (fun c => decide (c = ' '))
    rw [has_crlf_iff] at h ⊢
    obtain ⟨a, b, hab⟩ := h
    exact ⟨t ++ a, b, by rw [← ht, hab]; simp⟩

/-! Lemmas on splitting and joining. -/

theorem split_sep_ne_nil (sep : Char) (s : Str) : split_sep sep s ≠ [] := by
  induction s with
  | nil => simp [split_sep]
  | cons c rest ih =>
    unfold split_sep
    cases h : split_sep sep rest with
    | nil => simp
    | cons r rs =>
      by_cases hc : c = sep <;> simp [hc]

theorem split_sep_single {sep : Char} {p : Str} (h : sep ∉ p) : split_sep sep p = [p] := by
  induction p with
  | nil => rfl
  | cons c rest ih =>
    have hc : ¬ c = sep := fun he => h (by simp [he])
    have hr : split_sep sep rest = [rest] := ih (fun hm => h (by simp [hm]))
    unfold split_sep
    rw [hr]
    simp [hc]

theorem split_sep_cons_eq (sep d : Char) (tail : Str) :
    split_sep sep (d :: tail) =
      (match split_sep sep tail with
       | r :: rs => if d = sep then [] :: r :: rs else (d :: r) :: rs
       | [] => [[d]]) := rfl

theorem split_sep_comma_append (p rest : Str) (hp : ',' ∉ p) :
    split_sep ',' (p ++ ',' :: rest) = p :: split_sep ',' rest := by
  induction p with
  | nil =>
    show split_sep ',' (',' :: rest) = [] :: split_sep ',' rest
    rw [split_sep_cons_eq]
    cases h : split_sep ',' rest with
    | nil => exact absurd h (split_sep_ne_nil ',' rest)
    | cons r rs => simp
  | cons c cr ih =>
    have hc : ¬ c = ',' := fun he => hp (by simp [he])
    have ihcr := ih (fun hm => hp (by simp [hm]))
    show split_sep ',' (c :: (cr ++ ',' :: rest)) = (c :: cr) :: split_sep ',' rest
    rw [split_sep_cons_eq, ihcr]
    simp [hc]

theorem split_sep_join {g : List Str} (hne : g ≠ []) (h : ∀ p ∈ g, ',' ∉ p) :
    split_sep ',' (join_sep g) = g := by
  induction g with
  | nil => exact absurd rfl hne
  | cons p ps ih =>
    cases ps with
    | nil =>
      have := split_sep_single (h p (by simp))
      simpa [join_sep] using this
    | cons q qs =>
      have hrest : split_sep ',' (join_sep (q :: qs)) = q :: qs :=
        ih (by simp) (fun r hr => h r (by simp [hr]))
      have hp : ',' ∉ p := h p (by simp)
      show split_sep ',' (p ++ ',' :: join_sep (q :: qs)) = p :: q :: qs
      rw [split_sep_comma_append p _ hp, hrest]

theorem mem_split_sep {sep : Char} {s : Str} {p : Str} {c : Char}
    (hp : p ∈ split_sep sep s) (hc : c ∈ p) : c ∈ s := by
  induction s generalizing p with
  | nil =>
    simp [split_sep] at hp
    subst hp
    simp at hc
  | cons d rest ih =>
    unfold split_sep at hp
    cases h : split_sep sep rest with
    | nil => exact absurd h (split_sep_ne_nil sep rest)
    | cons r rs =>
      rw [h] at hp
      by_cases hd : d = sep
      · simp [hd] at hp
        rcases hp with hp | hp | hp
        · subst hp; simp at hc
        · right
          exact ih (by simp [h, hp]) hc
        · right
          exact ih (by simp [h, hp]) hc
      · simp [hd] at hp
        rcases hp with hp | hp
        · subst hp
          simp at hc
          rcases hc with hc | hc
          · simp [hc]
          · right
            exact ih (by simp [h]) hc
        · right
          exact ih (by simp [h, hp]) hc

theorem mem_join_sep {g : List Str} {c : Char} (h : c ∈ join_sep g) :
    c = ',' ∨ ∃ p ∈ g, c ∈ p := by
  induction g with
  | nil => simp [join_sep] at h
  | cons p ps ih =>
    cases ps with
    | nil =>
      simp [join_sep] at h
      exact Or.inr ⟨p, by simp, h⟩
    | cons q qs =>
      rw [show join_sep (p :: q :: qs) = p ++ ',' :: join_sep (q :: qs) from rfl] at h
      simp at h
      rcases h with h | h | h
      · exact Or.inr ⟨p, by simp, h⟩
      · exact Or.inl h
      · rcases ih h with h' | ⟨r, hr, hcr⟩
        · exact Or.inl h'
        · exact Or.inr ⟨r, by simp [hr], hcr⟩

theorem join_sep_cons (p : Str) (ps : List Str) :
    join_sep (p :: ps) = p ++ (match ps with | [] => [] | _ :: _ => ',' :: join_sep ps) := by
  cases ps <;> simp [join_sep]

/-! Serializer shape lemmas. -/

theorem group_chars_plain_aux (total : Nat) (g : List Str)
    (h : ∀ p ∈ g, ' ' ∉ p) :
    ∀ c j, group_chars total c j g =
      (match g, j with
       | [], _ => []
       | _ :: _, 0 => join_sep g
       | _ :: _, _ + 1 => ',' :: join_sep g) := by
  induction g with
  | nil => intro c j; cases j <;> rfl
  | cons p ps ih =>
    intro c j
    have hsp : ' ' ∉ p := h p (by simp)
    have ihps := ih (fun q hq => h q (by simp [hq])) (c + 1) (j + 1)
    cases j with
    | zero =>
      show (if c + 1 = total ∧ ' ' ∈ p then [':']
            else if (0 : Nat) ≠ 0 then [','] else []) ++ p ++
          group_chars total (c + 1) 1 ps = join_sep (p :: ps)
      rw [ihps]
      cases ps with
      | nil => simp [hsp, join_sep]
      | cons q qs => simp [hsp, join_sep_cons]
    | succ n =>
      show (if c + 1 = total ∧ ' ' ∈ p then [':']
            else if n + 1 ≠ 0 then [','] else []) ++ p ++
          group_chars total (c + 1) (n + 2) ps = ',' :: join_sep (p :: ps)
      rw [ihps]
      cases ps with
      | nil => simp [hsp, join_sep]
      | cons q qs => simp [hsp, join_sep_cons]

theorem group_chars_plain (total c : Nat) (g : List Str) (h : ∀ p ∈ g, ' ' ∉ p) :
    group_chars total c 0 g = join_sep g := by
  rw [group_chars_plain_aux total g h c 0]
  cases g <;> rfl

theorem group_chars_trailing (total c : Nat) (p : Str) (hsp : ' ' ∈ p)
    (hc : c + 1 = total) : group_chars total c 0 [p] = ':' :: p := by
  show (if c + 1 = total ∧ ' ' ∈ p then [':'] else if (0 : Nat) ≠ 0 then [','] else []) ++
      p ++ group_chars total (c + 1) 1 [] = ':' :: p
  simp [hc, hsp, group_chars]

theorem group_chars_single (total c : Nat) (p : Str) (hsp : ' ' ∉ p) :
    group_chars total c 0 [p] = p := by
  rw [group_chars_plain total c [p] (by simpa using hsp)]
  rfl

theorem groups_chars_eq_tail (total : Nat) :
    ∀ (gs : List (List Str)) (c : Nat), (∀ g ∈ gs, g ≠ []) → gs ≠ [] →
      groups_chars total c gs = ' ' :: tail_chars total c gs := by
  intro gs
  induction gs with
  | nil => intro c _ hne; exact absurd rfl hne
  | cons g gs ih =>
    intro c hne _
    have hg : g ≠ [] := hne g (by simp)
    cases gs with
    | nil =>
      show groups_chars total c [g] = ' ' :: tail_chars total c [g]
      unfold groups_chars tail_chars
      simp [hg, groups_chars]
    | cons g2 gs2 =>
      have := ih c ?_ (by simp)
      rotate_left
      · intro q hq
        exact hne q (by simp [hq])
      show groups_chars total c (g :: g2 :: gs2) = ' ' :: tail_chars total c (g :: g2 :: gs2)
      unfold groups_chars tail_chars
      rw [if_neg hg]
      have hrec := ih (c + g.length) (fun q hq => hne q (by simp [hq])) (by simp)
      rw [hrec]
      simp

/-! Lemmas about the whitespace eraser. -/

theorem erase_front_cons_ne {c : Char} {xs : Str} (h : ¬ c = ' ') :
    erase_front_whitespaces (c :: xs) = c :: xs := by
  unfold erase_front_whitespaces
  have hall : ¬ ((c :: xs).all (fun d => d = ' ') = true) := by
    simp [h]
  rw [if_neg hall]
  rw [List.dropWhile_cons]
  simp [h]

theorem erase_front_space_cons {c : Char} {xs : Str} (h : ¬ c = ' ') :
    erase_front_whitespaces (' ' :: c :: xs) = c :: xs := by
  unfold erase_front_whitespaces
  have hall : ¬ ((' ' :: c :: xs).all (fun d => d = ' ') = true) := by
    simp [h]
  rw [if_neg hall]
  rw [List.dropWhile_cons]
  simp [h, List.dropWhile_cons]

/-! Branch equations of the parameter loop. -/

theorem parse_params_colon (r : Str) (acc : List (List Str)) (h : r.head? = some ':') :
    parse_params r acc = process_last_param (r.drop 1) acc '\n' := by
  rw [parse_params]
  rw [if_pos h]

theorem parse_params_nospace (r : Str) (acc : List (List Str))
    (h1 : ¬ r.head? = some ':') (h2 : next_whitespace r = none) :
    parse_params r acc = process_last_param r acc ',' := by
  rw [parse_params]
  rw [if_neg h1]
  split
  · rfl
  · rename_i i heq
    rw [h2] at heq
    cases heq

theorem parse_params_space (r : Str) (acc : List (List Str)) (i : Nat)
    (h1 : ¬ r.head? = some ':') (h2 : next_whitespace r = some i) :
    parse_params r acc =
      (if param_is_valid (r.take i) then
        parse_params (r.drop (i + 1)) (acc ++ [split_sep ',' (r.take i)])
      else .error "Message is broken") := by
  rw [parse_params]
  rw [if_neg h1]
  split
  · rename_i heq
    rw [h2] at heq
    cases heq
  · rename_i j heq
    rw [h2] at heq
    cases heq
    rfl

/-! Destructuring the validity predicates. -/

theorem plain_token_props {p : Str} (h : plain_token p = true) :
    p ≠ [] ∧ ∀ c ∈ p, ¬ c = ' ' ∧ ¬ c = '\r' ∧ ¬ c = '\n' ∧ ¬ c = ':' ∧ ¬ c = ',' := by
  unfold plain_token at h
  simp at h
  exact ⟨by simpa [List.isEmpty_iff] using h.1, h.2⟩

theorem final_token_props {p : Str} (h : final_token p = true) :
    p ≠ [] ∧ ∀ c ∈ p, ¬ c = '\r' ∧ ¬ c = '\n' ∧ ¬ c = ':' ∧ ¬ c = ',' := by
  unfold final_token at h
  simp at h
  exact ⟨by simpa [List.isEmpty_iff] using h.1, h.2⟩

theorem plain_group_props {g : List Str} (h : plain_group g = true) :
    g ≠ [] ∧ ∀ p ∈ g, plain_token p = true := by
  unfold plain_group at h
  simp at h
  exact ⟨by simpa [List.isEmpty_iff] using h.1, h.2⟩

theorem valid_groups_single {g : List Str} (h : valid_groups [g] = true) :
    plain_group g = true ∨ ∃ p, g = [p] ∧ final_token p = true := by
  unfold valid_groups at h
  simp at h
  rcases h with h | h
  · exact Or.inl h
  · cases g with
    | nil => simp at h
    | cons p ps =>
      cases ps with
      | nil => exact Or.inr ⟨p, rfl, h⟩
      | cons q qs => simp at h

theorem valid_groups_cons {g g2 : List Str} {gs : List (List Str)}
    (h : valid_groups (g :: g2 :: gs) = true) :
    plain_group g = true ∧ valid_groups (g2 :: gs) = true := by
  unfold valid_groups at h
  simpa using h

theorem valid_groups_ne_nil {gs : List (List Str)} (h : valid_groups gs = true) :
    ∀ g ∈ gs, g ≠ [] := by
  induction gs with
  | nil => simp
  | cons g gs ih =>
    intro g' hg'
    cases gs with
    | nil =>
      simp at hg'
      subst hg'
      rcases valid_groups_single h with h' | ⟨p, hp, _⟩
      · exact (plain_group_props h').1
      · simp [hp]
    | cons g2 gs2 =>
      obtain ⟨h1, h2⟩ := valid_groups_cons h
      rcases List.mem_cons.mp hg' with hg' | hg'
      · subst hg'
        exact (plain_group_props h1).1
      · exact ih h2 g' hg'

/-! Properties of the comma-join of a plain group. -/

theorem join_plain_chars {g : List Str} (hg : plain_group g = true) :
    ∀ c ∈ join_sep g, ¬ c = ' ' ∧ ¬ c = '\r' ∧ ¬ c = '\n' ∧ ¬ c = ':' := by
  intro c hc
  rcases mem_join_sep hc with h | ⟨p, hp, hcp⟩
  · subst h
    refine ⟨by decide, by decide, by decide, by decide⟩
  · have := (plain_token_props ((plain_group_props hg).2 p hp)).2 c hcp
    exact ⟨this.1, this.2.1, this.2.2.1, this.2.2.2.1⟩

theorem join_plain_head {g : List Str} (hg : plain_group g = true) :
    ∃ d rest, join_sep g = d :: rest ∧ ¬ d = ' ' ∧ ¬ d = ':' := by
  obtain ⟨hne, htok⟩ := plain_group_props hg
  cases g with
  | nil => exact absurd rfl hne
  | cons p ps =>
    obtain ⟨hpne, hpch⟩ := plain_token_props (htok p (by simp))
    cases p with
    | nil => exact absurd rfl hpne
    | cons d dr =>
      have hd := hpch d (by simp)
      cases ps with
      | nil => exact ⟨d, dr, by simp [join_sep], hd.1, hd.2.2.2.1⟩
      | cons q qs =>
        refine ⟨d, dr ++ ',' :: join_sep (q :: qs), ?_, hd.1, hd.2.2.2.1⟩
        rw [join_sep_cons]
        simp

theorem param_is_valid_of_chars {s : Str}
    (h : ∀ c ∈ s, ¬ c = '\r' ∧ ¬ c = '\n' ∧ ¬ c = ':') : param_is_valid s = true := by
  unfold param_is_valid
  simp
  intro c hc
  have := h c hc
  exact ⟨this.2.1, this.1, this.2.2⟩

theorem plp_append (body ys : Str) (acc : List (List Str)) (sep : Char)
    (hbody : ∀ c ∈ body, ¬ c = '\r' ∧ ¬ c = '\n' ∧ ¬ c = ':') :
    process_last_param (body ++ '\r' :: '\n' :: ys) acc sep =
      .ok (acc ++ [split_sep sep body]) := by
  unfold process_last_param
  rw [eom_append body ys (fun c hc => ⟨(hbody c hc).1, (hbody c hc).2.1⟩)]
  show (if param_is_valid ((body ++ '\r' :: '\n' :: ys).take body.length) then
      Except.ok (acc ++ [split_sep sep ((body ++ '\r' :: '\n' :: ys).take body.length)])
    else Except.error "Message is broken") = Except.ok (acc ++ [split_sep sep body])
  rw [List.take_left]
  rw [if_pos (param_is_valid_of_chars hbody)]

/-- One plain group followed by CRLF is consumed by the comma branch of the
parameter loop. -/
theorem parse_params_plain_last {g : List Str} (acc : List (List Str))
    (hg : plain_group g = true) :
    parse_params (join_sep g ++ ['\r', '\n']) acc = .ok (acc ++ [g]) := by
  obtain ⟨d, rest, hJ, hd, hdc⟩ := join_plain_head hg
  have hchars := join_plain_chars hg
  have h1 : ¬ (join_sep g ++ ['\r', '\n']).head? = some ':' := by
    rw [hJ]
    simp
    intro he
    exact hdc he
  have h2 : next_whitespace (join_sep g ++ ['\r', '\n']) = none := by
    apply next_whitespace_none
    intro c hc
    simp at hc
    rcases hc with hc | hc | hc
    · exact (hchars c hc).1
    · subst hc; decide
    · subst hc; decide
  rw [parse_params_nospace _ _ h1 h2]
  have := plp_append (join_sep g) [] acc ','
    (fun c hc => ⟨(hchars c hc).2.1, (hchars c hc).2.2.1, (hchars c hc).2.2.2⟩)
  rw [show (join_sep g ++ ['\r', '\n'] : Str) = join_sep g ++ '\r' :: '\n' :: [] from rfl]
  rw [this]
  rw [split_sep_join (plain_group_props hg).1]
  intro p hp
  have := (plain_token_props ((plain_group_props hg).2 p hp)).2
  intro hm
  exact (this ',' hm).2.2.2.2 rfl

/-- The main loop lemma: the serialized parameter region followed by CRLF
reparses to exactly the original groups, appended to the accumulator. -/
theorem parse_params_tail (total : Nat) :
    ∀ (gs : List (List Str)) (c : Nat) (acc : List (List Str)),
      valid_groups gs = true → gs ≠ [] →
      c + (gs.map List.length).sum = total →
      parse_params (tail_chars total c gs ++ ['\r', '\n']) acc = .ok (acc ++ gs) := by
  intro gs
  induction gs with
  | nil => intro c acc _ hne _; exact absurd rfl hne
  | cons g gs ih =>
    intro c acc hv _ hsum
    cases gs with
    | nil =>
      rcases valid_groups_single hv with hplain | ⟨p, hp, hfin⟩
      · show parse_params (group_chars total c 0 g ++ ['\r', '\n']) acc = .ok (acc ++ [g])
        rw [group_chars_plain total c g
          (fun p hp => fun hm =>
            (plain_token_props ((plain_group_props hplain).2 p hp)).2 ' ' hm |>.1 rfl)]
        exact parse_params_plain_last acc hplain
      · subst hp
        obtain ⟨hpne, hpch⟩ := final_token_props hfin
        by_cases hsp : ' ' ∈ p
        · have hc1 : c + 1 = total := by
            simp at hsum
            omega
          show parse_params (group_chars total c 0 [p] ++ ['\r', '\n']) acc =
            .ok (acc ++ [[p]])
          rw [group_chars_trailing total c p hsp hc1]
          have h1 : ((':' :: p) ++ ['\r', '\n'] : Str).head? = some ':' := by simp
          rw [parse_params_colon _ acc h1]
          have hdrop : ((':' :: p) ++ ['\r', '\n'] : Str).drop 1 = p ++ '\r' :: '\n' :: [] := by
            simp
          rw [hdrop]
          rw [plp_append p [] acc '\n'
            (fun ch hch => ⟨(hpch ch hch).1, (hpch ch hch).2.1, (hpch ch hch).2.2.1⟩)]
          rw [split_sep_single (fun hm => (hpch '\n' hm).2.1 rfl)]
        · show parse_params (group_chars total c 0 [p] ++ ['\r', '\n']) acc =
            .ok (acc ++ [[p]])
          rw [group_chars_single total c p hsp]
          cases p with
          | nil => exact absurd rfl hpne
          | cons d dr =>
            have hd := hpch d (by simp)
            have h1 : ¬ ((d :: dr) ++ ['\r', '\n'] : Str).head? = some ':' := by
              simp
              intro he
              exact hd.2.2.1 he
            have h2 : next_whitespace ((d :: dr) ++ ['\r', '\n']) = none := by
              apply next_whitespace_none
              intro ch hch he
              subst he
              rcases List.mem_append.mp hch with hm | hm
              · exact hsp hm
              · simp at hm
            rw [parse_params_nospace _ _ h1 h2]
            rw [show ((d :: dr) ++ ['\r', '\n'] : Str) = (d :: dr) ++ '\r' :: '\n' :: []
              from rfl]
            rw [plp_append (d :: dr) [] acc ','
              (fun ch hch => ⟨(hpch ch hch).1, (hpch ch hch).2.1, (hpch ch hch).2.2.1⟩)]
            rw [split_sep_single (fun hm => (hpch ',' hm).2.2.2 rfl)]
    | cons g2 gs2 =>
      obtain ⟨hplain, hv2⟩ := valid_groups_cons hv
      have hchars := join_plain_chars hplain
      obtain ⟨d, rest, hJ, hd, hdc⟩ := join_plain_head hplain
      show parse_params
          ((group_chars total c 0 g ++ ' ' :: tail_chars total (c + g.length) (g2 :: gs2)) ++
            ['\r', '\n']) acc = .ok (acc ++ (g :: g2 :: gs2))
      rw [group_chars_plain total c g
        (fun p hp => fun hm =>
          (plain_token_props ((plain_group_props hplain).2 p hp)).2 ' ' hm |>.1 rfl)]
      have hre : (join_sep g ++ ' ' :: tail_chars total (c + g.length) (g2 :: gs2)) ++
          ['\r', '\n'] =
          join_sep g ++ ' ' :: (tail_chars total (c + g.length) (g2 :: gs2) ++ ['\r', '\n']) := by
        simp
      rw [hre]
      have h1 : ¬ (join_sep g ++
          ' ' :: (tail_chars total (c + g.length) (g2 :: gs2) ++ ['\r', '\n'])).head? =
          some ':' := by
        rw [hJ]
        simp
        intro he
        exact hdc he
      have h2 : next_whitespace (join_sep g ++
          ' ' :: (tail_chars total (c + g.length) (g2 :: gs2) ++ ['\r', '\n'])) =
          some (join_sep g).length :=
        next_whitespace_append_space _ _ (fun ch hch => (hchars ch hch).1)
      rw [parse_params_space _ acc (join_sep g).length h1 h2]
      rw [List.take_left]
      rw [if_pos (param_is_valid_of_chars
        (fun ch hch => ⟨(hchars ch hch).2.1, (hchars ch hch).2.2.1, (hchars ch hch).2.2.2⟩))]
      have hdrop : (join_sep g ++
          ' ' :: (tail_chars total (c + g.length) (g2 :: gs2) ++ ['\r', '\n'])).drop
            ((join_sep g).length + 1) =
          tail_chars total (c + g.length) (g2 :: gs2) ++ ['\r', '\n'] := by
        rw [show (join_sep g ++
            ' ' :: (tail_chars total (c + g.length) (g2 :: gs2) ++ ['\r', '\n'])) =
            (join_sep g ++ [' ']) ++
              (tail_chars total (c + g.length) (g2 :: gs2) ++ ['\r', '\n']) by simp]
        exact List.drop_left' (by simp)
      rw [hdrop]
      rw [split_sep_join (plain_group_props hplain).1
        (fun p hp => fun hm =>
          (plain_token_props ((plain_group_props hplain).2 p hp)).2 ',' hm |>.2.2.2.2 rfl)]
      have hsum2 : (c + g.length) + ((g2 :: gs2).map List.length).sum = total := by
        simp at hsum ⊢
        omega
      rw [ih (c + g.length) (acc ++ [g]) hv2 (by simp) hsum2]
      simp

theorem valid_command_props {cmd : Str} (h : valid_command cmd = true) :
    ∃ ch cr, cmd = ch :: cr ∧ ¬ ch = ' ' ∧ ¬ ch = ':' ∧
      ∀ c ∈ cmd, ¬ c = ' ' ∧ ¬ c = '\r' ∧ ¬ c = '\n' := by
  unfold valid_command at h
  simp at h
  obtain ⟨⟨hne, hch⟩, hcol⟩ := h
  cases cmd with
  | nil => simp at hne
  | cons ch cr =>
    refine ⟨ch, cr, rfl, (hch ch (by simp)).1, ?_, hch⟩
    simpa using hcol

/-- The first character of the serialized parameter region is never a
space. -/
theorem tail_chars_head (total : Nat) (gs : List (List Str)) (c : Nat)
    (hv : valid_groups gs = true) (hne : gs ≠ [])
    (hsum : c + (gs.map List.length).sum = total) :
    ∃ d t, tail_chars total c gs = d :: t ∧ ¬ d = ' ' := by
  cases gs with
  | nil => exact absurd rfl hne
  | cons g gs2 =>
    cases gs2 with
    | nil =>
      rcases valid_groups_single hv with hplain | ⟨p, hp, hfin⟩
      · obtain ⟨d, rest, hJ, hd, _⟩ := join_plain_head hplain
        refine ⟨d, rest, ?_, hd⟩
        show group_chars total c 0 g = d :: rest
        rw [group_chars_plain total c g
          (fun q hq => fun hm =>
            (plain_token_props ((plain_group_props hplain).2 q hq)).2 ' ' hm |>.1 rfl)]
        exact hJ
      · subst hp
        obtain ⟨hpne, hpch⟩ := final_token_props hfin
        by_cases hsp : ' ' ∈ p
        · have hc1 : c + 1 = total := by
            simp at hsum
            omega
          exact ⟨':', p, by
            show group_chars total c 0 [p] = ':' :: p
            exact group_chars_trailing total c p hsp hc1, by decide⟩
        · cases p with
          | nil => exact absurd rfl hpne
          | cons d dr =>
            refine ⟨d, dr, ?_, fun he => hsp (by simp [he])⟩
            show group_chars total c 0 [d :: dr] = d :: dr
            exact group_chars_single total c (d :: dr) hsp
    | cons g2 gs3 =>
      obtain ⟨hplain, _⟩ := valid_groups_cons hv
      obtain ⟨d, rest, hJ, hd, _⟩ := join_plain_head hplain
      refine ⟨d, rest ++ ' ' :: tail_chars total (c + g.length) (g2 :: gs3), ?_, hd⟩
      show group_chars total c 0 g ++ ' ' :: tail_chars total (c + g.length) (g2 :: gs3) =
        d :: (rest ++ ' ' :: tail_chars total (c + g.length) (g2 :: gs3))
      rw [group_chars_plain total c g
        (fun q hq => fun hm =>
          (plain_token_props ((plain_group_props hplain).2 q hq)).2 ' ' hm |>.1 rfl)]
      rw [hJ]
      simp

theorem parse_after_pfx_congr (pfxv : Option Str) {a b : Str}
    (h : erase_front_whitespaces a = erase_front_whitespaces b) :
    parse_after_pfx pfxv a = parse_after_pfx pfxv b := by
  unfold parse_after_pfx
  rw [h]

/-- The post-prefix continuation of the parser inverts the serializer on a
well-formed command and parameter groups. -/
theorem parse_after_pfx_core (pfxv : Option Str) (cmd : Str) (params : List (List Str))
    (hcmd : valid_command cmd = true) (hgs : valid_groups params = true) :
    parse_after_pfx pfxv
      (cmd ++ groups_chars ((params.map List.length).sum) 0 params ++ ['\r', '\n']) =
      .ok ⟨pfxv, cmd, params⟩ := by
  obtain ⟨ch, cr, hcmdeq, hchsp, hchcol, hall⟩ := valid_command_props hcmd
  subst hcmdeq
  cases params with
  | nil =>
    show parse_after_pfx pfxv ((ch :: cr) ++ [] ++ ['\r', '\n']) = .ok ⟨pfxv, ch :: cr, []⟩
    have hin : ((ch :: cr) ++ [] ++ ['\r', '\n'] : Str) = ch :: (cr ++ ['\r', '\n']) := by
      simp
    rw [hin]
    unfold parse_after_pfx
    rw [erase_front_cons_ne hchsp]
    have hws : next_whitespace (ch :: (cr ++ ['\r', '\n'])) = none := by
      apply next_whitespace_none
      intro c hc he
      subst he
      rcases List.mem_cons.mp hc with hm | hm
      · exact hchsp hm.symm
      · rcases List.mem_append.mp hm with hm | hm
        · exact (hall ' ' (by simp [hm])).1 rfl
        · simp at hm
    rw [hws]
    simp only []
    have heom := eom_append (ch :: cr) [] (fun c hc => ⟨(hall c hc).2.1, (hall c hc).2.2⟩)
    simp only [List.cons_append, List.append_nil] at heom
    rw [heom]
    simp only [List.length_cons]
    have htake := List.take_left (ch :: cr) (['\r', '\n'] : Str)
    simp only [List.cons_append, List.length_cons] at htake
    rw [htake]
  | cons g gs =>
    have hnenil := valid_groups_ne_nil hgs
    rw [groups_chars_eq_tail ((List.map List.length (g :: gs)).sum) (g :: gs) 0 hnenil
      (by simp)]
    obtain ⟨d, t, htl, hd⟩ := tail_chars_head ((List.map List.length (g :: gs)).sum)
      (g :: gs) 0 hgs (by simp) (by simp)
    have hin : ((ch :: cr) ++
        ' ' :: tail_chars ((List.map List.length (g :: gs)).sum) 0 (g :: gs) ++
        ['\r', '\n'] : Str) =
        ch :: (cr ++ ' ' ::
          (tail_chars ((List.map List.length (g :: gs)).sum) 0 (g :: gs) ++ ['\r', '\n'])) := by
      simp
    rw [hin]
    unfold parse_after_pfx
    rw [erase_front_cons_ne hchsp]
    have hws := next_whitespace_append_space (ch :: cr)
      (tail_chars ((List.map List.length (g :: gs)).sum) 0 (g :: gs) ++ ['\r', '\n'])
      (fun c hc => (hall c hc).1)
    simp only [List.cons_append, List.length_cons] at hws
    rw [hws]
    simp only []
    have htake := List.take_left (ch :: cr)
      (' ' :: (tail_chars ((List.map List.length (g :: gs)).sum) 0 (g :: gs) ++ ['\r', '\n']))
    simp only [List.cons_append, List.length_cons] at htake
    rw [htake]
    have hdrop := List.drop_left (ch :: cr)
      (' ' :: (tail_chars ((List.map List.length (g :: gs)).sum) 0 (g :: gs) ++ ['\r', '\n']))
    simp only [List.cons_append, List.length_cons] at hdrop
    rw [hdrop]
    have hef : erase_front_whitespaces
        (' ' :: (tail_chars ((List.map List.length (g :: gs)).sum) 0 (g :: gs) ++
          ['\r', '\n'])) =
        tail_chars ((List.map List.length (g :: gs)).sum) 0 (g :: gs) ++ ['\r', '\n'] := by
      rw [htl]
      show erase_front_whitespaces (' ' :: (d :: (t ++ ['\r', '\n']))) = (d :: t) ++ ['\r', '\n']
      rw [erase_front_space_cons hd]
      simp
    rw [hef]
    rw [parse_params_tail ((List.map List.length (g :: gs)).sum) (g :: gs) 0 [] hgs
      (by simp) (by simp)]
    simp

/-- C1 counterexample: the message `c1cex` satisfies the claim's validity —
every parameter group is a non-empty list of tokens free of CR, LF, colon
and comma, with no space anywhere — yet serializing and reparsing does not
give the message back: the serializer emits nothing for the empty token of
the first group, the two adjacent spaces collapse, and the first group is
lost. -/
theorem round_trip_loses_group :
    claim_valid_groups c1cex.params = true ∧
    parse (as_string c1cex) = .ok ⟨none, "C".toList, [["a".toList]]⟩ ∧
    (⟨none, "C".toList, [["a".toList]]⟩ : Message) ≠ c1cex := by
  refine ⟨by decide, ?_, by decide⟩
  have h2 : parse_params ['a', '\r', '\n'] [] = .ok [[['a']]] := by
    rw [parse_params]
    rfl
  have h3 : parse (as_string c1cex) =
      (match parse_params ['a', '\r', '\n'] [] with
       | .error e => .error e
       | .ok ps => .ok ⟨none, ['C'], ps⟩) := rfl
  rw [h3, h2]
  rfl

/-- C1 (amended): for every wire message with a well-formed prefix (no
space, CR or LF), a well-formed command (non-empty; no space, CR or LF; not
starting with a colon) and well-formed parameter groups (every group a
non-empty list of non-empty tokens free of space, CR, LF, colon and comma —
except that a final single-element group may contain spaces in its token),
parsing the serialization gives back exactly the original message; the
serializer already appends the CRLF. -/
theorem parse_as_string (m : Message) (hm : valid_wire_message m = true) :
    parse (as_string m) = .ok m := by
  obtain ⟨pfxv, cmd, params⟩ := m
  unfold valid_wire_message at hm
  simp at hm
  obtain ⟨⟨hp, hc⟩, hg⟩ := hm
  obtain ⟨ch, cr, hcmdeq, hchsp, hchcol, _⟩ := valid_command_props hc
  cases pfxv with
  | none =>
    have hser : as_string ⟨none, cmd, params⟩ =
        cmd ++ groups_chars ((params.map List.length).sum) 0 params ++ ['\r', '\n'] := by
      unfold as_string params_total_count
      simp
    rw [hser]
    unfold parse
    have hhd : ¬ (cmd ++ groups_chars ((params.map List.length).sum) 0 params ++
        ['\r', '\n']).head? = some ':' := by
      subst hcmdeq
      simp
      intro he
      exact hchcol he
    rw [if_neg hhd]
    exact parse_after_pfx_core none cmd params hc hg
  | some p =>
    have hser : as_string ⟨some p, cmd, params⟩ =
        (':' :: p) ++ ' ' :: (cmd ++ groups_chars ((params.map List.length).sum) 0 params ++
          ['\r', '\n']) := by
      unfold as_string params_total_count
      simp
    rw [hser]
    unfold parse
    have hpch : ∀ c ∈ p, ¬ c = ' ' ∧ ¬ c = '\r' ∧ ¬ c = '\n' := by
      intro c hc2
      unfold valid_pfx at hp
      simp at hp
      exact hp c hc2
    have hhd : ((':' :: p) ++ ' ' :: (cmd ++
        groups_chars ((params.map List.length).sum) 0 params ++
        ['\r', '\n'])).head? = some ':' := by
      simp
    rw [if_pos hhd]
    have hws := next_whitespace_append_space (':' :: p)
      (cmd ++ groups_chars ((params.map List.length).sum) 0 params ++ ['\r', '\n'])
      (by
        intro c hc2 he
        subst he
        rcases List.mem_cons.mp hc2 with hm | hm
        · simp at hm
        · exact (hpch ' ' hm).1 rfl)
    rw [hws]
    simp only []
    rw [List.take_left, List.drop_left]
    show parse_after_pfx (some p)
        (' ' :: (cmd ++ groups_chars ((params.map List.length).sum) 0 params ++
          ['\r', '\n'])) = .ok ⟨some p, cmd, params⟩
    have hcongr := parse_after_pfx_congr (some p)
      (a := ' ' :: (cmd ++
        groups_chars ((params.map List.length).sum) 0 params ++ ['\r', '\n']))
      (b := cmd ++
        groups_chars ((params.map List.length).sum) 0 params ++ ['\r', '\n'])
      (by
        subst hcmdeq
        rw [show ((ch :: cr) ++
            groups_chars ((params.map List.length).sum) 0 params ++
            ['\r', '\n'] : Str) =
            ch :: (cr ++
              groups_chars ((params.map List.length).sum) 0 params ++
              ['\r', '\n']) from by simp]
        rw [show (' ' :: (ch :: (cr ++
            groups_chars ((params.map List.length).sum) 0 params ++
            ['\r', '\n'])) : Str) =
            ' ' :: ch :: (cr ++
              groups_chars ((params.map List.length).sum) 0 params ++
              ['\r', '\n']) from rfl]
        rw [erase_front_space_cons hchsp, erase_front_cons_ne hchsp])
    rw [hcongr]
    exact parse_after_pfx_core (some p) cmd params hc hg

/-- Witness for C1 (amended) at a concrete prefixed PRIVMSG with a plain
group and a trailing group. -/
theorem parse_as_string_witness :
    valid_wire_message
      ⟨some "WiZ".toList, "PRIVMSG".toList, [["#ch".toList], ["Hello world".toList]]⟩ =
      true ∧
    parse (as_string
      ⟨some "WiZ".toList, "PRIVMSG".toList, [["#ch".toList], ["Hello world".toList]]⟩) =
      .ok ⟨some "WiZ".toList, "PRIVMSG".toList, [["#ch".toList], ["Hello world".toList]]⟩ :=
  ⟨by decide,
   parse_as_string
     ⟨some "WiZ".toList, "PRIVMSG".toList, [["#ch".toList], ["Hello world".toList]]⟩
     (by decide)⟩

/-! ## C2: the trailing parameter -/

/-- The serialized middle-plus-trailing region starts with a character that
is not a space: a colon when there is no middle group, else the head of the
first plain group. -/
theorem trailing_chars_head (gs : List (List Str)) (t : Str)
    (hgs : ∀ g ∈ gs, plain_group g = true) :
    ∃ d tr, trailing_chars gs t = d :: tr ∧ ¬ d = ' ' := by
  cases gs with
  | nil => exact ⟨':', t ++ ['\r', '\n'], rfl, by decide⟩
  | cons g gs =>
    obtain ⟨d, rest, hJ, hd, _⟩ := join_plain_head (hgs g (by simp))
    refine ⟨d, rest ++ ' ' :: trailing_chars gs t, ?_, hd⟩
    show join_sep g ++ ' ' :: trailing_chars gs t = d :: (rest ++ ' ' :: trailing_chars gs t)
    rw [hJ]
    simp

/-- The parameter loop consumes plain middle groups and then a colon-led
trailing text free of CR, LF and colon, returning the trailing text as a
final single-element group. -/
theorem parse_params_trailing (gs : List (List Str)) (t : Str) :
    ∀ acc : List (List Str), (∀ g ∈ gs, plain_group g = true) →
      (∀ c ∈ t, ¬ c = '\r' ∧ ¬ c = '\n' ∧ ¬ c = ':') →
      parse_params (trailing_chars gs t) acc = .ok (acc ++ gs ++ [[t]]) := by
  induction gs with
  | nil =>
    intro acc _ ht
    show parse_params (':' :: (t ++ ['\r', '\n'])) acc = .ok (acc ++ [] ++ [[t]])
    rw [parse_params_colon _ acc (by simp)]
    show process_last_param (t ++ ['\r', '\n']) acc '\n' = .ok (acc ++ [] ++ [[t]])
    rw [show (t ++ ['\r', '\n'] : Str) = t ++ '\r' :: '\n' :: [] from rfl]
    rw [plp_append t [] acc '\n' ht]
    rw [split_sep_single (fun hm => (ht '\n' hm).2.1 rfl)]
    simp
  | cons g gs ih =>
    intro acc hgs ht
    have hplain : plain_group g = true := hgs g (by simp)
    have hchars := join_plain_chars hplain
    obtain ⟨d, rest, hJ, hd, hdc⟩ := join_plain_head hplain
    show parse_params (join_sep g ++ ' ' :: trailing_chars gs t) acc =
      .ok (acc ++ (g :: gs) ++ [[t]])
    have h1 : ¬ (join_sep g ++ ' ' :: trailing_chars gs t).head? = some ':' := by
      rw [hJ]
      simp
      intro he
      exact hdc he
    have h2 : next_whitespace (join_sep g ++ ' ' :: trailing_chars gs t) =
        some (join_sep g).length :=
      next_whitespace_append_space _ _ (fun ch hch => (hchars ch hch).1)
    rw [parse_params_space _ acc (join_sep g).length h1 h2]
    rw [List.take_left]
    rw [if_pos (param_is_valid_of_chars
      (fun ch hch => ⟨(hchars ch hch).2.1, (hchars ch hch).2.2.1, (hchars ch hch).2.2.2⟩))]
    have hdrop : (join_sep g ++ ' ' :: trailing_chars gs t).drop ((join_sep g).length + 1) =
        trailing_chars gs t := by
      rw [show (join_sep g ++ ' ' :: trailing_chars gs t : Str) =
          (join_sep g ++ [' ']) ++ trailing_chars gs t by simp]
      exact List.drop_left' (by simp)
    rw [hdrop]
    rw [split_sep_join (plain_group_props hplain).1
      (fun p hp => fun hm =>
        (plain_token_props ((plain_group_props hplain).2 p hp)).2 ',' hm |>.2.2.2.2 rfl)]
    rw [ih (acc ++ [g]) (fun g2 hg2 => hgs g2 (by simp [hg2])) ht]
    simp

/-- C2 counterexample: the trailing text `b:c` is free of CR and LF, so the
claim says the parser returns it verbatim as the final single-element group;
but the parser runs `param_is_valid` over the trailing slice too, and the
inner colon makes the whole line an error. -/
theorem trailing_colon_rejected :
    ("b:c".toList.all (fun c => ¬ (c = '\r' ∨ c = '\n')) = true) ∧
    parse "PRIVMSG :b:c\r\n".toList = .error "Message is broken" := by
  refine ⟨by decide, ?_⟩
  have h2 : parse_params [':', 'b', ':', 'c', '\r', '\n'] [] = .error "Message is broken" := by
    rw [parse_params]
    rfl
  have h3 : parse "PRIVMSG :b:c\r\n".toList =
      (match parse_params [':', 'b', ':', 'c', '\r', '\n'] [] with
       | .error e => .error e
       | .ok ps => .ok ⟨none, "PRIVMSG".toList, ps⟩) := rfl
  rw [h3, h2]

/-- C2 (amended): for a line made of a valid command, plain middle groups
and a colon-introduced trailing text, the parser returns the trailing text
verbatim as a final single-element group — provided the trailing text is
free of CR, LF *and colon*; spaces inside it are preserved. (The unamended
claim allowed colons inside the trailing text, but `param_is_valid` is
applied to the trailing slice as well and any colon there is an error.) -/
theorem trailing_param_verbatim (cmd : Str) (gs : List (List Str)) (t : Str)
    (hcmd : valid_command cmd = true)
    (hgs : ∀ g ∈ gs, plain_group g = true)
    (ht : ∀ c ∈ t, ¬ c = '\r' ∧ ¬ c = '\n' ∧ ¬ c = ':') :
    parse (line_with_trailing cmd gs t) = .ok ⟨none, cmd, gs ++ [[t]]⟩ := by
  obtain ⟨ch, cr, hcmdeq, hchsp, hchcol, hall⟩ := valid_command_props hcmd
  subst hcmdeq
  unfold line_with_trailing
  have hin : ((ch :: cr) ++ ' ' :: trailing_chars gs t : Str) =
      ch :: (cr ++ ' ' :: trailing_chars gs t) := by simp
  rw [hin]
  unfold parse
  have hhd : ¬ (ch :: (cr ++ ' ' :: trailing_chars gs t)).head? = some ':' := by
    simp
    intro he
    exact hchcol he
  rw [if_neg hhd]
  unfold parse_after_pfx
  rw [erase_front_cons_ne hchsp]
  have hws := next_whitespace_append_space (ch :: cr) (trailing_chars gs t)
    (fun c hc => (hall c hc).1)
  simp only [List.cons_append, List.length_cons] at hws
  rw [hws]
  simp only []
  have htake := List.take_left (ch :: cr) (' ' :: trailing_chars gs t)
  simp only [List.cons_append, List.length_cons] at htake
  rw [htake]
  have hdrop := List.drop_left (ch :: cr) (' ' :: trailing_chars gs t)
  simp only [List.cons_append, List.length_cons] at hdrop
  rw [hdrop]
  obtain ⟨d, tr, htl, hd⟩ := trailing_chars_head gs t hgs
  have hef : erase_front_whitespaces (' ' :: trailing_chars gs t) = trailing_chars gs t := by
    rw [htl]
    exact erase_front_space_cons hd
  rw [hef]
  rw [parse_params_trailing gs t [] hgs ht]
  simp

/-- Witness for C2 (amended) at a concrete PRIVMSG with one plain group and
a space-carrying trailing text. -/
theorem trailing_param_verbatim_witness :
    valid_command "PRIVMSG".toList = true ∧
    (∀ g ∈ [["#ch".toList]], plain_group g = true) ∧
    (∀ c ∈ "Hello world".toList, ¬ c = '\r' ∧ ¬ c = '\n' ∧ ¬ c = ':') ∧
    parse (line_with_trailing "PRIVMSG".toList [["#ch".toList]] "Hello world".toList) =
      .ok ⟨none, "PRIVMSG".toList, [["#ch".toList], ["Hello world".toList]]⟩ :=
  ⟨by decide, by decide, by decide,
   trailing_param_verbatim "PRIVMSG".toList [["#ch".toList]] "Hello world".toList
     (by decide) (by decide) (by decide)⟩

/-! ## C3: parser failure conditions -/

/-- Without a CRLF pair in the slice, locating the end of the message is an
error. -/
theorem eom_no_crlf (s : Str) (h : has_crlf s = false) :
    get_index_of_end_of_message s = .error "Message is broken" := by
  induction s with
  | nil => rfl
  | cons c rest ih =>
    rw [show has_crlf (c :: rest) =
        (((c = '\r' ∧ rest.head? = some '\n') || has_crlf rest : Bool)) from rfl] at h
    simp at h
    unfold get_index_of_end_of_message
    by_cases hn : c = '\n'
    · rw [if_pos hn]
    · rw [if_neg hn]
      by_cases hr : c = '\r'
      · rw [if_pos hr]
        rw [if_neg (h.1 hr)]
      · rw [if_neg hr]
        rw [ih h.2]
        rfl

/-- Without a CRLF pair, the last-parameter processing is an error. -/
theorem plp_no_crlf (s : Str) (acc : List (List Str)) (sep : Char)
    (h : has_crlf s = false) :
    process_last_param s acc sep = .error "Message is broken" := by
  unfold process_last_param
  rw [eom_no_crlf s h]

/-- Without a CRLF pair, the parameter loop is an error (by strong induction
on the length of the remaining slice). -/
theorem parse_params_no_crlf :
    ∀ (n : Nat) (r : Str) (acc : List (List Str)), r.length ≤ n →
      has_crlf r = false → parse_params r acc = .error "Message is broken" := by
  intro n
  induction n with
  | zero =>
    intro r acc hlen hcr
    cases r with
    | nil =>
      rw [parse_params_nospace [] acc (by simp) rfl]
      rfl
    | cons c rest => simp at hlen
  | succ n ih =>
    intro r acc hlen hcr
    by_cases hcol : r.head? = some ':'
    · rw [parse_params_colon r acc hcol]
      apply plp_no_crlf
      cases h2 : has_crlf (r.drop 1) with
      | false => rfl
      | true => exact absurd (has_crlf_drop h2) (by simp [hcr])
    · cases hws : next_whitespace r with
      | none =>
        rw [parse_params_nospace r acc hcol hws]
        exact plp_no_crlf _ _ _ hcr
      | some i =>
        rw [parse_params_space r acc i hcol hws]
        by_cases hval : param_is_valid (r.take i) = true
        · rw [if_pos hval]
          apply ih
          · have hi := next_whitespace_lt hws
            simp
            omega
          · cases h2 : has_crlf (r.drop (i + 1)) with
            | false => rfl
            | true => exact absurd (has_crlf_drop h2) (by simp [hcr])
        · rw [if_neg hval]

/-- Without a CRLF pair anywhere in the remainder, the post-command stage of
the parser is an error. -/
theorem parse_after_pfx_no_crlf (pfxv : Option Str) (r : Str)
    (h : has_crlf r = false) :
    parse_after_pfx pfxv r = .error "Message is broken" := by
  have hef : has_crlf (erase_front_whitespaces r) = false := by
    cases h2 : has_crlf (erase_front_whitespaces r) with
    | false => rfl
    | true => exact absurd (has_crlf_erase_front h2) (by simp [h])
  unfold parse_after_pfx
  split
  · rw [eom_no_crlf _ hef]
  · rename_i i hws
    have hd2 : has_crlf ((erase_front_whitespaces r).drop i) = false := by
      cases h2 : has_crlf ((erase_front_whitespaces r).drop i) with
      | false => rfl
      | true => exact absurd (has_crlf_drop h2) (by simp [hef])
    have he2 : has_crlf
        (erase_front_whitespaces ((erase_front_whitespaces r).drop i)) = false := by
      cases h2 : has_crlf (erase_front_whitespaces ((erase_front_whitespaces r).drop i)) with
      | false => rfl
      | true => exact absurd (has_crlf_erase_front h2) (by simp [hd2])
    rw [parse_params_no_crlf
      (erase_front_whitespaces ((erase_front_whitespaces r).drop i)).length _ [] le_rfl he2]

/-- Without a CRLF pair anywhere, `parse` is an error. -/
theorem parse_no_crlf (s : Str) (h : has_crlf s = false) :
    parse s = .error "Message is broken" := by
  unfold parse
  by_cases hcol : s.head? = some ':'
  · rw [if_pos hcol]
    split
    · rfl
    · rename_i i hws
      apply parse_after_pfx_no_crlf
      cases h2 : has_crlf (s.drop i) with
      | false => rfl
      | true => exact absurd (has_crlf_drop h2) (by simp [h])
  · rw [if_neg hcol]
    exact parse_after_pfx_no_crlf none s h

/-- Inversion of a successful last-parameter processing: the result appends
one split of a validated slice. -/
theorem plp_ok {s : Str} {acc ps : List (List Str)} {sep : Char}
    (h : process_last_param s acc sep = .ok ps) :
    ∃ idx, ps = acc ++ [split_sep sep (s.take idx)] ∧
      param_is_valid (s.take idx) = true := by
  unfold process_last_param at h
  split at h
  · cases h
  · rename_i idx heq
    by_cases hv : param_is_valid (s.take idx) = true
    · rw [if_pos hv] at h
      cases h
      exact ⟨idx, rfl, hv⟩
    · rw [if_neg hv] at h
      cases h

/-- Every group a successful parameter loop returns consists of validated
parameters (given the accumulator already does). -/
theorem parse_params_valid :
    ∀ (n : Nat) (r : Str) (acc ps : List (List Str)), r.length ≤ n →
      parse_params r acc = .ok ps →
      (∀ g ∈ acc, ∀ p ∈ g, param_is_valid p = true) →
      ∀ g ∈ ps, ∀ p ∈ g, param_is_valid p = true := by
  intro n
  induction n with
  | zero =>
    intro r acc ps hlen hok hacc
    cases r with
    | nil =>
      rw [parse_params_nospace [] acc (by simp) rfl] at hok
      rw [show process_last_param [] acc ',' = Except.error "Message is broken" from rfl]
        at hok
      cases hok
    | cons c rest => simp at hlen
  | succ n ih =>
    intro r acc ps hlen hok hacc
    by_cases hcol : r.head? = some ':'
    · rw [parse_params_colon r acc hcol] at hok
      obtain ⟨idx, hps, hval⟩ := plp_ok hok
      subst hps
      intro g hg p hp
      rcases List.mem_append.mp hg with hg | hg
      · exact hacc g hg p hp
      · simp at hg
        subst hg
        unfold param_is_valid at hval ⊢
        simp at hval ⊢
        intro c hc
        exact hval c (mem_split_sep hp hc)
    · cases hws : next_whitespace r with
      | none =>
        rw [parse_params_nospace r acc hcol hws] at hok
        obtain ⟨idx, hps, hval⟩ := plp_ok hok
        subst hps
        intro g hg p hp
        rcases List.mem_append.mp hg with hg | hg
        · exact hacc g hg p hp
        · simp at hg
          subst hg
          unfold param_is_valid at hval ⊢
          simp at hval ⊢
          intro c hc
          exact hval c (mem_split_sep hp hc)
      | some i =>
        rw [parse_params_space r acc i hcol hws] at hok
        by_cases hvi : param_is_valid (r.take i) = true
        · rw [if_pos hvi] at hok
          refine ih (r.drop (i + 1)) (acc ++ [split_sep ',' (r.take i)]) ps ?_ hok ?_
          · have hi := next_whitespace_lt hws
            simp
            omega
          · intro g hg p hp
            rcases List.mem_append.mp hg with hg | hg
            · exact hacc g hg p hp
            · simp at hg
              subst hg
              unfold param_is_valid at hvi ⊢
              simp at hvi ⊢
              intro c hc
              exact hvi c (mem_split_sep hp hc)
        · rw [if_neg hvi] at hok
          cases hok
/-- Inversion of a successful post-command stage: the parameters are either
empty or the result of a successful parameter loop started on an empty
accumulator. -/
theorem parse_after_pfx_params {pfxv : Option Str} {r : Str} {m : Message}
    (h : parse_after_pfx pfxv r = .ok m) :
    m.params = [] ∨ ∃ r2, parse_params r2 [] = .ok m.params := by
  unfold parse_after_pfx at h
  split at h
  · split at h
    · cases h
    · cases h
      left
      rfl
  · split at h
    · cases h
    · rename_i ps heq
      cases h
      right
      exact ⟨_, heq⟩

/-- Every parameter of a successfully parsed message went through
`param_is_valid`. -/
theorem parse_ok_params_valid {s : Str} {m : Message} (h : parse s = .ok m) :
    ∀ g ∈ m.params, ∀ p ∈ g, param_is_valid p = true := by
  unfold parse at h
  split at h
  · split at h
    · cases h
    · rcases parse_after_pfx_params h with hnil | ⟨r2, h2⟩
      · rw [hnil]
        simp
      · exact parse_params_valid r2.length r2 [] m.params le_rfl h2 (by simp)
  · rcases parse_after_pfx_params h with hnil | ⟨r2, h2⟩
    · rw [hnil]
      simp
    · exact parse_params_valid r2.length r2 [] m.params le_rfl h2 (by simp)

/-- C3 counterexample: the claim says a line with no command token (e.g. a
line that is empty up to CRLF) is a parse error; in fact the bare line
`"\r\n"` parses successfully, to a message whose command is the empty
string and whose parameter list is empty. -/
theorem empty_line_parses :
    parse ['\r', '\n'] = .ok ⟨none, [], []⟩ := rfl

/-- C3 (amended): the parser errors on every input with no CRLF pair (in
particular a bare LF, a bare CR, or LF-before-CR with no later CRLF), and a
forbidden character (CR, LF or colon) inside any parameter — the validation
runs on the trailing slice too — makes every would-be parameter group fail
validation, so every parameter of any successfully parsed message is free
of CR, LF and colon. The unamended claim's remaining condition is dropped:
a line with no command token is *not* an error — `"\r\n"` parses to an
empty command with no parameters. -/
theorem parse_error_conditions :
    (∀ s : Str, has_crlf s = false → parse s = .error "Message is broken") ∧
    (∀ (s : Str) (m : Message), parse s = .ok m →
      ∀ g ∈ m.params, ∀ p ∈ g, param_is_valid p = true) :=
  ⟨fun s h => parse_no_crlf s h, fun _ _ h => parse_ok_params_valid h⟩

/-- Witness for C3 (amended): a CRLF-free input is rejected, and the
parameters of a successfully parsed concrete line are validated. -/
theorem parse_error_conditions_witness :
    (has_crlf ['P'] = false ∧ parse ['P'] = .error "Message is broken") ∧
    (parse ['\r', '\n'] = .ok ⟨none, [], []⟩ ∧
      ∀ g ∈ (Message.mk none [] [] : Message).params, ∀ p ∈ g,
        param_is_valid p = true) :=
  ⟨⟨rfl, parse_error_conditions.1 ['P'] rfl⟩,
   ⟨rfl, parse_error_conditions.2 ['\r', '\n'] ⟨none, [], []⟩ rfl⟩⟩

end IrcChat
